import Mathlib

/-!
# Verification of the hero-ban recommendation engine

Shallow embedding of the hero-pool analysis and ban-classification core of
the repository (`src/main.py`, `src/models.py`), together with proofs of the
specification claims about it.

Modelling conventions:
* Python `int` counters (match counts, wins) become `Nat`.
* Python `float` arithmetic (win rates, play rates, HHI) becomes exact
  rational arithmetic over `ℚ`; the literal thresholds `0.4`, `2.0`, `0.25`
  become the rationals `2/5`, `2`, `1/4`.
* `float('inf')` (the play-rate decay of a pool with fewer than two heroes)
  is modelled as `⊤ : WithTop ℚ`.
* A Python dict that may lack a key is modelled with `Option`: the degenerate
  return value of `calculate_hero_pool_metrics` carries no
  `play_rate_decay` key, hence that field has type `Option (WithTop ℚ)`.
* Python dicts preserve insertion order, so dicts are modelled as ordered
  association lists (`List (key × value)`); `collections.Counter` becomes an
  association list with a lookup that defaults to `0`.
* The formatted f-string output lines of `compile_ban_recommendations` are
  modelled as a structured inductive type `Line` carrying exactly the data
  interpolated into each string (decimal formatting and the
  `constants.HERO_EMOJI_MAP` display substitution are presentation-layer
  concerns; `constants.py` is not part of the analysed sources and the map
  does not change which hero a line is about).
-/

/-! ## Data model (from `src/models.py`) -/

/-- `RankedStats` from `models.py`.  The pydantic fields `matches` and `wins`
are `Optional[int] = 0`; the analysed code paths never feed an explicit
`null`, so they are modelled as `Nat` (the pydantic default `0` is the value
used when absent).  The remaining fields are carried for fidelity but are
never read by the analysed functions. -/
structure RankedStats where
  «matches» : Nat
  wins : Nat
  mvp : Nat
  svp : Nat
  kills : Nat
  deaths : Nat
  assists : Nat
  kdr : ℚ
  kda : ℚ
  damage_given : Nat
  damage_received : Nat
  heal : Nat
deriving DecidableEq

/-- `HeroStats` from `models.py`: a hero name (pydantic default `"Unknown"`)
and optional ranked statistics. -/
structure HeroStats where
  hero_name : String
  ranked : Option RankedStats
deriving DecidableEq

/-- `PlayerInfoResponse` from `models.py`: `hero_stats` is an optional dict
keyed by numeric hero id, modelled as an insertion-ordered association
list. -/
structure PlayerInfoResponse where
  player_name : String
  hero_stats : Option (List (Nat × HeroStats))
deriving DecidableEq

/-- One entry of the list returned by `get_top_heroes`: the Python dict
`{"hero_name": …, "matches": …, "winrate": …}`. -/
structure HeroRecord where
  hero_name : String
  «matches» : Nat
  winrate : ℚ
deriving DecidableEq

/-! ## Configuration constants (from `src/main.py`, lines 21-33) -/

/-- Minimum winrate % to consider a hero commonly played well. -/
def COMMON_WINRATE_THRESHOLD : ℚ := 55

/-- Minimum matches needed to consider hero experience. -/
def COMMON_MATCH_THRESHOLD : Nat := 20

/-- Minimum winrate % to identify strong players. -/
def GOOD_PLAYER_WINRATE_THRESHOLD : ℚ := 60

/-- Minimum matches needed to identify strong players. -/
def GOOD_PLAYER_MATCH_THRESHOLD : Nat := 30

/-- Minimum matches needed to be considered a one-trick. -/
def ONE_TRICK_MINIMUM_MATCHES : Nat := 50

/-- 40% of total matches on main hero (`0.4` in the source). -/
def PRIMARY_HERO_THRESHOLD : ℚ := 2 / 5

/-- Main hero played 2x more than second hero (`2.0` in the source). -/
def PLAY_RATE_DECAY_THRESHOLD : ℚ := 2

/-- HHI threshold for hero pool concentration (`0.25` in the source). -/
def HERO_POOL_CONCENTRATION_THRESHOLD : ℚ := 1 / 4

/-- The default `top_n=5` of `get_top_heroes`. -/
def TOP_N : Nat := 5

/-! ## `get_top_heroes` (from `src/main.py`, lines 129-160)

Python's `list.sort(key=itemgetter("matches"), reverse=True)` is a stable
sort; it is embedded as `List.insertionSort` with the non-strict descending
comparison on `matches`, which is likewise stable. -/

/-- The comparison used to sort hero records: `a` may come before `b`
iff `b.«matches» ≤ a.«matches»` (descending; ties are allowed either way, so the
sort keeps ties in input order). -/
def matchesDescR (a b : HeroRecord) : Prop := b.«matches» ≤ a.«matches»

instance : DecidableRel matchesDescR := fun a b =>
  inferInstanceAs (Decidable (b.«matches» ≤ a.«matches»))

instance : IsTotal HeroRecord matchesDescR :=
  ⟨fun a b => (Nat.le_total b.«matches» a.«matches»).imp id id⟩

instance : IsTrans HeroRecord matchesDescR :=
  ⟨fun _ _ _ hab hbc => Nat.le_trans hbc hab⟩

/-- `get_top_heroes` from `main.py`.  Builds the `ranked_heroes` list by the
source's loop over `hero_stats.items()` (skipping heroes with missing ranked
data or zero matches; the winrate `wins / matches * 100` is only attached to
records with `matches > 0`), sorts by `matches` descending (stable), and
returns the first `top_n` entries.  `if not hero_stats: return []` covers
both a missing (`None`) and an empty mapping. -/
def get_top_heroes (player_data : PlayerInfoResponse) (top_n : Nat) : List HeroRecord :=
  match player_data.hero_stats with
  | none => []
  | some hero_stats =>
    if hero_stats.isEmpty then []
    else
      let ranked_heroes : List HeroRecord :=
        hero_stats.foldl (fun acc p =>
          match p.2.ranked with
          | none => acc
          | some ranked_data =>
            if 0 < ranked_data.«matches» then
              acc ++ [⟨p.2.hero_name, ranked_data.«matches»,
                      (ranked_data.wins : ℚ) / (ranked_data.«matches» : ℚ) * 100⟩]
            else acc) []
      (ranked_heroes.insertionSort matchesDescR).take top_n

/-! ## `calculate_hero_pool_metrics` (from `src/main.py`, lines 353-402) -/

/-- Sum of `matches` over a hero list (`total_matches` in the source). -/
def totalMatches (top_heroes : List HeroRecord) : Nat :=
  (top_heroes.map (·.«matches»)).sum

/-- The play-rate distribution `play_rates` of the source: each hero's
matches divided by the pool total. -/
def playRates (top_heroes : List HeroRecord) : List ℚ :=
  top_heroes.map (fun hero => (hero.«matches» : ℚ) / (totalMatches top_heroes : ℚ))

/-- The Herfindahl-Hirschman index `hhi` of the source: sum of squared play
rates. -/
def hhi (top_heroes : List HeroRecord) : ℚ :=
  ((playRates top_heroes).map (fun rate => rate * rate)).sum

/-- `primary_hero_dominance` of the source: `play_rates[0] if play_rates
else 0`. -/
def primaryDominance (top_heroes : List HeroRecord) : ℚ :=
  (playRates top_heroes).headD 0

/-- `play_rate_decay` of the source: `play_rates[0] / play_rates[1]` when at
least two heroes are present, `float('inf')` (modelled `⊤`) otherwise. -/
def playRateDecay (top_heroes : List HeroRecord) : WithTop ℚ :=
  match playRates top_heroes with
  | r0 :: r1 :: _ => ((r0 / r1 : ℚ) : WithTop ℚ)
  | _ => ⊤

/-- The dictionary returned by `calculate_hero_pool_metrics`.  The degenerate
branches of the source return a dict *without* a `"play_rate_decay"` key,
hence `play_rate_decay : Option (WithTop ℚ)` with `none` meaning "key
absent". -/
structure PoolMetrics where
  diversity_score : ℚ
  primary_hero_dominance : ℚ
  play_rate_decay : Option (WithTop ℚ)
  is_one_trick : Bool
  total_matches : Nat
deriving DecidableEq

/-- `calculate_hero_pool_metrics` from `main.py`.  Empty pools and pools
with zero total matches return the zero-valued metrics dict (with no
`play_rate_decay` key); otherwise play rates, HHI, dominance and decay are
computed and `is_one_trick` is the conjunction of the four threshold
checks. -/
def calculate_hero_pool_metrics (top_heroes : List HeroRecord) : PoolMetrics :=
  if top_heroes.isEmpty then
    ⟨0, 0, none, false, 0⟩
  else
    if totalMatches top_heroes = 0 then
      ⟨0, 0, none, false, 0⟩
    else
      let is_one_trick : Bool :=
        decide (ONE_TRICK_MINIMUM_MATCHES ≤ totalMatches top_heroes) &&
        decide (PRIMARY_HERO_THRESHOLD < primaryDominance top_heroes) &&
        decide ((PLAY_RATE_DECAY_THRESHOLD : WithTop ℚ) < playRateDecay top_heroes) &&
        decide (HERO_POOL_CONCENTRATION_THRESHOLD < hhi top_heroes)
      ⟨1 - hhi top_heroes, primaryDominance top_heroes,
       some (playRateDecay top_heroes), is_one_trick, totalMatches top_heroes⟩

/-! ## Association-list dictionary operations

Python dicts preserve insertion order; these helpers implement the exact
dict/`Counter` operations the classifier uses. -/

/-- `Counter[k]`: lookup with default `0`. -/
def countOf (l : List (String × Nat)) (k : String) : Nat :=
  (List.lookup k l).getD 0

/-- `Counter[k] += 1`: increment in place if the key exists, else append
`(k, 1)` (Python dicts append new keys at the end). -/
def incr : List (String × Nat) → String → List (String × Nat)
  | [], k => [(k, 1)]
  | (k', n) :: rest, k =>
    if k = k' then (k', n + 1) :: rest else (k', n) :: incr rest k

/-- `d.setdefault(k, []).append(v)`: append `v` to the list stored at `k`,
creating the key (at the end) if absent. -/
def setdefaultAppend : List (String × List α) → String → α → List (String × List α)
  | [], k, v => [(k, [v])]
  | (k', vs) :: rest, k, v =>
    if k = k' then (k', vs ++ [v]) :: rest
    else (k', vs) :: setdefaultAppend rest k v

/-- `k in d` for an association-list dict. -/
def keyMem (l : List (String × α)) (k : String) : Bool :=
  (List.lookup k l).isSome

/-! ## `determine_bans` (from `src/main.py`, lines 163-225)

The source's single loop over `players_data.items()` accumulates four
independent structures (`player_top_heroes`, `one_tricks`, `good_players`,
`hero_usage`); no accumulator is read while another is written, so the loop
is embedded as one fold per accumulator over the same processed-player
list. -/

/-- One evidence entry of the `one_tricks` dict: the Python dict
`{"player": …, "matches": …, "winrate": …, "dominance": …, "diversity": …}`. -/
structure OTEntry where
  player : String
  «matches» : Nat
  winrate : ℚ
  dominance : ℚ
  diversity : ℚ
deriving DecidableEq

/-- The loop's skip logic: a player contributes only if their data is
present (`if not player_data: continue`) and their top-hero list is
non-empty (`if not top_heroes: continue`); `get_top_heroes` is called with
the default `top_n=5`. -/
def playerEntry (p : String × Option PlayerInfoResponse) :
    Option (String × List HeroRecord) :=
  match p.2 with
  | none => none
  | some player_data =>
    let top_heroes := get_top_heroes player_data TOP_N
    if top_heroes.isEmpty then none else some (p.1, top_heroes)

/-- `player_top_heroes` after the loop: name and top-hero list of every
processed player, in batch order. -/
def playerTopHeroes (players_data : List (String × Option PlayerInfoResponse)) :
    List (String × List HeroRecord) :=
  players_data.filterMap playerEntry

/-- The loop body updating `one_tricks` for one processed player: if the
player's metrics mark `is_one_trick`, an evidence entry is appended under
the primary (first) hero's name. -/
def otStep (one_tricks : List (String × List OTEntry))
    (pr : String × List HeroRecord) : List (String × List OTEntry) :=
  let metrics := calculate_hero_pool_metrics pr.2
  if metrics.is_one_trick then
    match pr.2 with
    | [] => one_tricks
    | primary_hero :: _ =>
      setdefaultAppend one_tricks primary_hero.hero_name
        ⟨pr.1, primary_hero.«matches», primary_hero.winrate,
         metrics.primary_hero_dominance, metrics.diversity_score⟩
  else one_tricks

/-- `one_tricks` after the loop. -/
def one_tricks_of (pth : List (String × List HeroRecord)) :
    List (String × List OTEntry) :=
  pth.foldl otStep []

/-- The loop body updating `good_players` for one top-hero record of the
player `name`: `(player, matches, winrate)` is appended under the hero's
name when the record meets the good-player thresholds. -/
def gpStep (name : String) (good_players : List (String × List (String × Nat × ℚ)))
    (hero : HeroRecord) : List (String × List (String × Nat × ℚ)) :=
  if GOOD_PLAYER_WINRATE_THRESHOLD ≤ hero.winrate ∧
     GOOD_PLAYER_MATCH_THRESHOLD ≤ hero.«matches» then
    setdefaultAppend good_players hero.hero_name
      (name, hero.«matches», hero.winrate)
  else good_players

/-- `good_players` after the loop: the inner loop over one player's
top-hero records, folded over all processed players. -/
def good_players_of (pth : List (String × List HeroRecord)) :
    List (String × List (String × Nat × ℚ)) :=
  pth.foldl (fun good_players pr => pr.2.foldl (gpStep pr.1) good_players) []

/-- The loop body updating `hero_usage` for one top-hero record: the
counter is incremented at the hero's name when the record meets the common
thresholds. -/
def usageStep (hero_usage : List (String × Nat)) (hero : HeroRecord) :
    List (String × Nat) :=
  if COMMON_WINRATE_THRESHOLD ≤ hero.winrate ∧
     COMMON_MATCH_THRESHOLD ≤ hero.«matches» then
    incr hero_usage hero.hero_name
  else hero_usage

/-- `hero_usage` after the loop: the inner loop over one player's top-hero
records, folded over all processed players. -/
def hero_usage_of (pth : List (String × List HeroRecord)) :
    List (String × Nat) :=
  pth.foldl (fun hero_usage pr => pr.2.foldl usageStep hero_usage) []

/-- `ban_candidates = one_trick_set | good_player_set | common_hero_set`.
Python iterates this `set` in an unspecified order; the embedding fixes one
concrete enumeration of the union (keys of the three dicts, deduplicated).
No claim depends on the enumeration order. -/
def banCandidatesOf (pth : List (String × List HeroRecord)) : List String :=
  ((one_tricks_of pth).map Prod.fst ++ (good_players_of pth).map Prod.fst ++
    ((hero_usage_of pth).filter (fun p => 1 < p.2)).map Prod.fst).dedup

/-! ## `get_common_hero_players` and `compile_ban_recommendations`
(from `src/main.py`, lines 228-273) -/

/-- `get_common_hero_players` from `main.py`: one `(player, matches,
winrate)` entry for every record named `hero` in any processed player's
top-hero list, in iteration order.  (The source renders each entry as the
string `"{player}: {matches} matches, {winrate:.2f}% winrate"`.) -/
def get_common_hero_players (hero : String)
    (player_top_heroes : List (String × List HeroRecord)) :
    List (String × Nat × ℚ) :=
  player_top_heroes.flatMap (fun pr =>
    (pr.2.filter (fun hero_data => hero_data.hero_name == hero)).map
      (fun hero_data => (pr.1, hero_data.«matches», hero_data.winrate)))

/-- One recommendation line, structured: the data interpolated into the
f-strings of `compile_ban_recommendations`. -/
inductive Line where
  | oneTrick (hero player : String) («matches» : Nat) (winrate dominance : ℚ)
  | goodPlayer (hero player : String) («matches» : Nat) (winrate : ℚ)
  | commonHero (hero : String) (players : List (String × Nat × ℚ))
deriving DecidableEq

/-- The loop body of `compile_ban_recommendations` for one candidate hero:
the exclusive `if hero in one_tricks / elif hero in good_players /
elif hero_usage[hero] > 1` chain (with the `if common_players:` guard on
the common branch), appending to the triple of category line lists. -/
def compileStep (one_tricks : List (String × List OTEntry))
    (good_players : List (String × List (String × Nat × ℚ)))
    (hero_usage : List (String × Nat))
    (player_top_heroes : List (String × List HeroRecord))
    (acc : List Line × List Line × List Line) (hero : String) :
    List Line × List Line × List Line :=
  match List.lookup hero one_tricks with
  | some entries =>
    (acc.1 ++ entries.map (fun e =>
       Line.oneTrick hero e.player e.«matches» e.winrate e.dominance),
     acc.2.1, acc.2.2)
  | none =>
    match List.lookup hero good_players with
    | some entries =>
      (acc.1,
       acc.2.1 ++ entries.map (fun e =>
         Line.goodPlayer hero e.1 e.2.1 e.2.2),
       acc.2.2)
    | none =>
      if 1 < countOf hero_usage hero then
        let common_players := get_common_hero_players hero player_top_heroes
        if common_players.isEmpty then acc
        else (acc.1, acc.2.1, acc.2.2 ++ [Line.commonHero hero common_players])
      else acc

/-- `compile_ban_recommendations` from `main.py`: one pass over the
candidate heroes appending to three lists via the exclusive
`if hero in one_tricks / elif hero in good_players / elif hero_usage[hero] > 1`
chain (with the `if common_players:` guard on the common branch), returning
`one_trick_bans + good_player_bans + common_hero_bans`. -/
def compile_ban_recommendations (ban_candidates : List String)
    (one_tricks : List (String × List OTEntry))
    (good_players : List (String × List (String × Nat × ℚ)))
    (hero_usage : List (String × Nat))
    (player_top_heroes : List (String × List HeroRecord)) : List Line :=
  let r := ban_candidates.foldl
    (compileStep one_tricks good_players hero_usage player_top_heroes)
    ([], [], [])
  r.1 ++ r.2.1 ++ r.2.2

/-- `determine_bans` from `main.py`: process the batch, form the candidate
set, and compile the recommendations. -/
def determine_bans (players_data : List (String × Option PlayerInfoResponse)) :
    List Line :=
  let pth := playerTopHeroes players_data
  compile_ban_recommendations (banCandidatesOf pth) (one_tricks_of pth)
    (good_players_of pth) (hero_usage_of pth) pth

/-! ## Derived observables used by the claims -/

/-- The three ban categories, in priority order. -/
inductive BanCat where
  | oneTrick
  | goodPlayer
  | commonHero
deriving DecidableEq

/-- The hero a line is about. -/
def heroOfLine : Line → String
  | .oneTrick hero _ _ _ _ => hero
  | .goodPlayer hero _ _ _ => hero
  | .commonHero hero _ => hero

/-- The category a line belongs to. -/
def catOfLine : Line → BanCat
  | .oneTrick _ _ _ _ _ => .oneTrick
  | .goodPlayer _ _ _ _ => .goodPlayer
  | .commonHero _ _ => .commonHero

/-- The category under which a hero would be rendered, following the
source's exclusive `if`/`elif` precedence; `none` when the hero is not a
candidate at all. -/
def banCategory (pth : List (String × List HeroRecord)) (hero : String) :
    Option BanCat :=
  if keyMem (one_tricks_of pth) hero then some .oneTrick
  else if keyMem (good_players_of pth) hero then some .goodPlayer
  else if 1 < countOf (hero_usage_of pth) hero then some .commonHero
  else none

/-- Membership of a hero in `ban_candidates`. -/
def isBanCandidate (pth : List (String × List HeroRecord)) (hero : String) :
    Bool :=
  keyMem (one_tricks_of pth) hero || keyMem (good_players_of pth) hero ||
    decide (1 < countOf (hero_usage_of pth) hero)

/-- A top-hero record counted by the common-hero usage counter for `hero`:
name matches and both common thresholds are met. -/
def commonQualB (hero : String) (h : HeroRecord) : Bool :=
  (h.hero_name == hero) && decide (COMMON_WINRATE_THRESHOLD ≤ h.winrate) &&
    decide (COMMON_MATCH_THRESHOLD ≤ h.«matches»)

/-! ## Helper lemmas about `calculate_hero_pool_metrics` -/

/-- Both degenerate branches return the zero-valued metrics dict. -/
theorem calculate_hero_pool_metrics_degenerate (l : List HeroRecord)
    (h : l = [] ∨ totalMatches l = 0) :
    calculate_hero_pool_metrics l = ⟨0, 0, none, false, 0⟩ := by
  unfold calculate_hero_pool_metrics
  rcases h with h | h
  · subst h; rfl
  · cases l with
    | nil => rfl
    | cons a t => simp [h]

/-- The non-degenerate branch of `calculate_hero_pool_metrics`, written with
the standalone metric definitions. -/
theorem calculate_hero_pool_metrics_pos (l : List HeroRecord)
    (hne : l ≠ []) (ht : totalMatches l ≠ 0) :
    calculate_hero_pool_metrics l =
      ⟨1 - hhi l, primaryDominance l, some (playRateDecay l),
       decide (ONE_TRICK_MINIMUM_MATCHES ≤ totalMatches l) &&
         decide (PRIMARY_HERO_THRESHOLD < primaryDominance l) &&
         decide ((PLAY_RATE_DECAY_THRESHOLD : WithTop ℚ) < playRateDecay l) &&
         decide (HERO_POOL_CONCENTRATION_THRESHOLD < hhi l),
       totalMatches l⟩ := by
  cases l with
  | nil => exact absurd rfl hne
  | cons a t =>
    unfold calculate_hero_pool_metrics
    simp [ht]

/-- A non-empty pool whose records all have positive matches has a positive
total. -/
theorem totalMatches_pos (l : List HeroRecord) (hne : l ≠ [])
    (hm : ∀ h ∈ l, 0 < h.«matches») : 0 < totalMatches l := by
  cases l with
  | nil => exact absurd rfl hne
  | cons a t =>
    have ha : 0 < a.«matches» := hm a (List.mem_cons_self a t)
    simp only [totalMatches, List.map_cons, List.sum_cons]
    omega

/-- Summing a list after dividing every entry by `c` divides the sum by
`c`. -/
theorem sum_map_div (l : List ℚ) (c : ℚ) :
    (l.map (fun x => x / c)).sum = l.sum / c := by
  induction l with
  | nil => simp
  | cons a t ih => simp [ih, add_div]

/-- Casting a sum of naturals to `ℚ` commutes with summation. -/
theorem cast_sum_matches (l : List HeroRecord) :
    ((totalMatches l : ℚ)) = (l.map (fun h => (h.«matches» : ℚ))).sum := by
  unfold totalMatches
  rw [Nat.cast_list_sum, List.map_map]
  rfl

/-- Every member's match count is at most the pool total. -/
theorem matches_le_totalMatches (l : List HeroRecord) {h : HeroRecord}
    (hm : h ∈ l) : h.«matches» ≤ totalMatches l := by
  induction l with
  | nil => cases hm
  | cons a t ih =>
    rcases List.mem_cons.mp hm with rfl | hmem
    · simp only [totalMatches, List.map_cons, List.sum_cons]; omega
    · have := ih hmem
      simp only [totalMatches, List.map_cons, List.sum_cons] at this ⊢
      omega

/-- Summing a constant list of rationals. -/
theorem sum_map_const_q {α : Type} (l : List α) (f : α → ℚ) (c : ℚ)
    (h : ∀ x ∈ l, f x = c) : (l.map f).sum = l.length * c := by
  induction l with
  | nil => simp
  | cons a t ih =>
    have ha := h a (List.mem_cons_self a t)
    have ht := ih (fun x hx => h x (List.mem_cons_of_mem a hx))
    simp [ha, ht]
    ring

/-- The play rates sum to `1` whenever the total is non-zero. -/
theorem playRates_sum (l : List HeroRecord) (ht : totalMatches l ≠ 0) :
    (playRates l).sum = 1 := by
  have hcast : ((totalMatches l : ℚ)) ≠ 0 := by
    exact_mod_cast ht
  unfold playRates
  rw [show (fun hero : HeroRecord => (hero.«matches» : ℚ) / (totalMatches l : ℚ))
      = (fun x : ℚ => x / (totalMatches l : ℚ)) ∘ (fun hero : HeroRecord => (hero.«matches» : ℚ))
      from rfl]
  rw [← List.map_map, sum_map_div, ← cast_sum_matches, div_self hcast]

/-- Every play rate lies in `[0, 1]`. -/
theorem playRates_mem_unit (l : List HeroRecord) {r : ℚ}
    (hr : r ∈ playRates l) : 0 ≤ r ∧ r ≤ 1 := by
  unfold playRates at hr
  rcases List.mem_map.mp hr with ⟨h, hmem, rfl⟩
  have hle : (h.«matches» : ℚ) ≤ (totalMatches l : ℚ) := by
    exact_mod_cast matches_le_totalMatches l hmem
  rcases Nat.eq_zero_or_pos (totalMatches l) with h0 | hpos
  · simp [h0]
  · have hpos' : (0 : ℚ) < (totalMatches l : ℚ) := by exact_mod_cast hpos
    constructor
    · positivity
    · rw [div_le_one hpos']
      exact hle

/-! ## Claim C1 -/

/-- **C1.** For every top-hero list (all records carry positive matches, as
`get_top_heroes` guarantees) whose total matches reach
`ONE_TRICK_MINIMUM_MATCHES` (50), `calculate_hero_pool_metrics` reports
`is_one_trick = true` iff all four conditions hold together: total matches
at least 50, first play rate strictly above `PRIMARY_HERO_THRESHOLD` (2/5),
play-rate decay strictly above `PLAY_RATE_DECAY_THRESHOLD` (2), and HHI
strictly above `HERO_POOL_CONCENTRATION_THRESHOLD` (1/4); failing any one
condition yields `false`. -/
theorem C1_one_trick_iff (l : List HeroRecord)
    (hm : ∀ h ∈ l, 0 < h.«matches»)
    (ht : ONE_TRICK_MINIMUM_MATCHES ≤ totalMatches l) :
    (calculate_hero_pool_metrics l).is_one_trick = true ↔
      (ONE_TRICK_MINIMUM_MATCHES ≤ totalMatches l ∧
       PRIMARY_HERO_THRESHOLD < primaryDominance l ∧
       (PLAY_RATE_DECAY_THRESHOLD : WithTop ℚ) < playRateDecay l ∧
       HERO_POOL_CONCENTRATION_THRESHOLD < hhi l) := by
  have htot : totalMatches l ≠ 0 := by
    unfold ONE_TRICK_MINIMUM_MATCHES at ht; omega
  have hne : l ≠ [] := by
    intro h
    rw [h] at htot
    exact htot rfl
  rw [calculate_hero_pool_metrics_pos l hne htot]
  simp only [Bool.and_eq_true, decide_eq_true_eq]
  tauto

/-- Witness for C1 at the spec's own scenario: heroes X (80 matches) and Y
(10 matches). -/
theorem C1_one_trick_iff_witness :
    (calculate_hero_pool_metrics
        [⟨"X", 80, 70⟩, ⟨"Y", 10, 50⟩]).is_one_trick = true ↔
      (ONE_TRICK_MINIMUM_MATCHES ≤ totalMatches [⟨"X", 80, 70⟩, ⟨"Y", 10, 50⟩] ∧
       PRIMARY_HERO_THRESHOLD < primaryDominance [⟨"X", 80, 70⟩, ⟨"Y", 10, 50⟩] ∧
       (PLAY_RATE_DECAY_THRESHOLD : WithTop ℚ) <
         playRateDecay [⟨"X", 80, 70⟩, ⟨"Y", 10, 50⟩] ∧
       HERO_POOL_CONCENTRATION_THRESHOLD < hhi [⟨"X", 80, 70⟩, ⟨"Y", 10, 50⟩]) :=
  C1_one_trick_iff [⟨"X", 80, 70⟩, ⟨"Y", 10, 50⟩] (by decide) (by decide)

/-! ## Claim C5 -/

/-- **C5.** For every top-hero list that is empty or whose matches sum to
zero, `calculate_hero_pool_metrics` returns (totally, with no division
performed) metrics with `diversity_score = 0`, `primary_hero_dominance = 0`,
`is_one_trick = false` and `total_matches = 0`. -/
theorem C5_degenerate_pool (l : List HeroRecord)
    (h : l = [] ∨ totalMatches l = 0) :
    (calculate_hero_pool_metrics l).diversity_score = 0 ∧
    (calculate_hero_pool_metrics l).primary_hero_dominance = 0 ∧
    (calculate_hero_pool_metrics l).is_one_trick = false ∧
    (calculate_hero_pool_metrics l).total_matches = 0 := by
  rw [calculate_hero_pool_metrics_degenerate l h]
  exact ⟨rfl, rfl, rfl, rfl⟩

/-- Witness for C5 at the empty pool and at an all-zero pool. -/
theorem C5_degenerate_pool_witness :
    ((calculate_hero_pool_metrics ([] : List HeroRecord)).diversity_score = 0 ∧
     (calculate_hero_pool_metrics ([] : List HeroRecord)).primary_hero_dominance = 0 ∧
     (calculate_hero_pool_metrics ([] : List HeroRecord)).is_one_trick = false ∧
     (calculate_hero_pool_metrics ([] : List HeroRecord)).total_matches = 0) ∧
    ((calculate_hero_pool_metrics [⟨"Z", 0, 0⟩]).is_one_trick = false) :=
  ⟨C5_degenerate_pool [] (Or.inl rfl),
   (C5_degenerate_pool [⟨"Z", 0, 0⟩] (Or.inr (by decide))).2.2.1⟩

/-! ## Claim C9 (corrected) -/

/-- **C9, counterexample.** The claim says the `play_rate_decay` component
is `+infinity` for every pool with fewer than two heroes *including the
empty list*; but on the empty list the source returns the degenerate metrics
dict that has no `play_rate_decay` key at all (modelled `none`), not the
value `+infinity` (modelled `some ⊤`). -/
theorem C9_counterexample :
    (calculate_hero_pool_metrics ([] : List HeroRecord)).play_rate_decay ≠
      some (⊤ : WithTop ℚ) ∧
    (calculate_hero_pool_metrics ([] : List HeroRecord)).play_rate_decay = none := by
  constructor
  · intro h
    simpa [calculate_hero_pool_metrics] using h
  · rfl

/-- **C9, amended.** For a top-hero list of records with positive matches:
a single-hero list yields `play_rate_decay = +infinity` (`some ⊤`); the
empty list yields a metrics dict with *no* `play_rate_decay` entry
(`none`); and a list of two or more heroes yields the ratio of the first
play rate to the second. -/
theorem C9_play_rate_decay (l : List HeroRecord)
    (hm : ∀ h ∈ l, 0 < h.«matches») :
    (l = [] → (calculate_hero_pool_metrics l).play_rate_decay = none) ∧
    (l.length = 1 →
      (calculate_hero_pool_metrics l).play_rate_decay = some (⊤ : WithTop ℚ)) ∧
    (2 ≤ l.length →
      (calculate_hero_pool_metrics l).play_rate_decay =
        some ((((playRates l).headD 0 / (playRates l).tail.headD 0 : ℚ)) : WithTop ℚ)) := by
  refine ⟨?_, ?_, ?_⟩
  · intro h
    rw [calculate_hero_pool_metrics_degenerate l (Or.inl h)]
  · intro hlen
    match l, hlen with
    | [a], _ =>
      have hne : ([a] : List HeroRecord) ≠ [] := by simp
      have ht : totalMatches [a] ≠ 0 := by
        have := totalMatches_pos [a] hne hm
        omega
      rw [calculate_hero_pool_metrics_pos [a] hne ht]
      simp only [Option.some.injEq]
      unfold playRateDecay playRates
      simp
  · intro hlen
    match l, hlen with
    | a :: b :: t, _ =>
      have hne : (a :: b :: t : List HeroRecord) ≠ [] := by simp
      have ht : totalMatches (a :: b :: t) ≠ 0 := by
        have := totalMatches_pos (a :: b :: t) hne hm
        omega
      rw [calculate_hero_pool_metrics_pos _ hne ht]
      simp only [Option.some.injEq]
      unfold playRateDecay playRates
      simp

/-- Witness for C9 (amended) at a one-hero and at a two-hero pool. -/
theorem C9_play_rate_decay_witness :
    ((calculate_hero_pool_metrics [⟨"H", 7, 50⟩]).play_rate_decay =
      some (⊤ : WithTop ℚ)) ∧
    ((calculate_hero_pool_metrics [⟨"X", 80, 70⟩, ⟨"Y", 10, 50⟩]).play_rate_decay =
      some ((((playRates [⟨"X", 80, 70⟩, ⟨"Y", 10, 50⟩]).headD 0 /
        (playRates [⟨"X", 80, 70⟩, ⟨"Y", 10, 50⟩]).tail.headD 0 : ℚ)) : WithTop ℚ)) :=
  ⟨(C9_play_rate_decay [⟨"H", 7, 50⟩] (by decide)).2.1 rfl,
   (C9_play_rate_decay [⟨"X", 80, 70⟩, ⟨"Y", 10, 50⟩] (by decide)).2.2 (by decide)⟩

/-- A pool whose records all have the same match count `m` has total
`length * m`. -/
theorem totalMatches_const (l : List HeroRecord) (m : Nat)
    (hall : ∀ h ∈ l, h.«matches» = m) : totalMatches l = l.length * m := by
  unfold totalMatches
  induction l with
  | nil => simp
  | cons a t ih =>
    have ha := hall a (List.mem_cons_self a t)
    have ht := ih (fun h hx => hall h (List.mem_cons_of_mem a hx))
    simp only [List.map_cons, List.sum_cons, List.length_cons]
    rw [ha, ht]
    ring

/-- The first play rate of a non-empty pool. -/
theorem primaryDominance_cons (a : HeroRecord) (t : List HeroRecord) :
    primaryDominance (a :: t) =
      (a.«matches» : ℚ) / (totalMatches (a :: t) : ℚ) := by
  unfold primaryDominance playRates
  simp

/-! ## Claim C7 -/

/-- **C7.** For every non-empty pool with non-zero total matches, the
returned `diversity_score` plus the HHI equals exactly `1`; a single-hero
pool (positive matches) has HHI exactly `1`; and `k` heroes with equal
positive match counts have HHI exactly `1/k`. -/
theorem C7_diversity_plus_hhi :
    (∀ l : List HeroRecord, l ≠ [] → totalMatches l ≠ 0 →
      (calculate_hero_pool_metrics l).diversity_score + hhi l = 1) ∧
    (∀ h : HeroRecord, 0 < h.«matches» → hhi [h] = 1) ∧
    (∀ (l : List HeroRecord) (m : Nat), 0 < m → l ≠ [] →
      (∀ h ∈ l, h.«matches» = m) → hhi l = 1 / l.length) := by
  refine ⟨?_, ?_, ?_⟩
  · intro l hne ht
    rw [calculate_hero_pool_metrics_pos l hne ht]
    show 1 - hhi l + hhi l = 1
    ring
  · intro h hm
    have hm' : (h.«matches» : ℚ) ≠ 0 := by
      exact_mod_cast Nat.pos_iff_ne_zero.mp hm
    unfold hhi playRates totalMatches
    simp [div_self hm']
  · intro l m hmpos hne hall
    have hlen : l.length ≠ 0 := fun h => hne (List.eq_nil_of_length_eq_zero h)
    have hlenq : (l.length : ℚ) ≠ 0 := by exact_mod_cast hlen
    have hmq : (m : ℚ) ≠ 0 := by exact_mod_cast Nat.pos_iff_ne_zero.mp hmpos
    have htot := totalMatches_const l m hall
    have hrate : ∀ r ∈ playRates l, r * r = 1 / (l.length : ℚ) / (l.length : ℚ) := by
      intro r hr
      rcases List.mem_map.mp hr with ⟨h, hx, rfl⟩
      rw [hall h hx, htot]
      push_cast
      field_simp
      ring
    unfold hhi
    rw [sum_map_const_q (playRates l) _ (1 / (l.length : ℚ) / (l.length : ℚ)) hrate]
    unfold playRates
    rw [List.length_map]
    field_simp

/-- Witness for C7: the two-hero demo pool, a one-hero pool, and three
equally-played heroes. -/
theorem C7_diversity_plus_hhi_witness :
    ((calculate_hero_pool_metrics [⟨"X", 80, 70⟩, ⟨"Y", 10, 50⟩]).diversity_score +
       hhi [⟨"X", 80, 70⟩, ⟨"Y", 10, 50⟩] = 1) ∧
    (hhi [⟨"H", 7, 50⟩] = 1) ∧
    (hhi [⟨"A", 4, 50⟩, ⟨"B", 4, 50⟩, ⟨"C", 4, 50⟩] =
      1 / ([⟨"A", 4, 50⟩, ⟨"B", 4, 50⟩, ⟨"C", 4, 50⟩] : List HeroRecord).length) :=
  ⟨C7_diversity_plus_hhi.1 [⟨"X", 80, 70⟩, ⟨"Y", 10, 50⟩] (by decide) (by decide),
   C7_diversity_plus_hhi.2.1 ⟨"H", 7, 50⟩ (by decide),
   C7_diversity_plus_hhi.2.2 [⟨"A", 4, 50⟩, ⟨"B", 4, 50⟩, ⟨"C", 4, 50⟩] 4
     (by decide) (by decide) (by decide)⟩

/-! ## Claim C10 -/

/-- **C10.** For every non-empty top-hero list of records with positive
matches, the play rates sum to exactly `1`, the returned primary dominance
lies in `(0, 1]`, and the returned diversity score lies in `[0, 1)`. -/
theorem C10_play_rate_invariants (l : List HeroRecord) (hne : l ≠ [])
    (hm : ∀ h ∈ l, 0 < h.«matches») :
    (playRates l).sum = 1 ∧
    0 < (calculate_hero_pool_metrics l).primary_hero_dominance ∧
    (calculate_hero_pool_metrics l).primary_hero_dominance ≤ 1 ∧
    0 ≤ (calculate_hero_pool_metrics l).diversity_score ∧
    (calculate_hero_pool_metrics l).diversity_score < 1 := by
  have htpos : 0 < totalMatches l := totalMatches_pos l hne hm
  have ht : totalMatches l ≠ 0 := Nat.pos_iff_ne_zero.mp htpos
  have htq : (0 : ℚ) < (totalMatches l : ℚ) := by exact_mod_cast htpos
  have hhi_le : hhi l ≤ 1 := by
    have hsq : ∀ r ∈ playRates l, r * r ≤ r := by
      intro r hr
      have h01 := playRates_mem_unit l hr
      nlinarith [h01.1, h01.2]
    have hle : hhi l ≤ (playRates l).sum := by
      unfold hhi
      calc ((playRates l).map (fun rate => rate * rate)).sum
          ≤ ((playRates l).map id).sum :=
            List.sum_le_sum (fun r hr => hsq r hr)
        _ = (playRates l).sum := by rw [List.map_id]
    rw [playRates_sum l ht] at hle
    exact hle
  have hhi_pos : 0 < hhi l := by
    cases l with
    | nil => exact absurd rfl hne
    | cons a t =>
      have ha : 0 < a.«matches» := hm a (List.mem_cons_self a t)
      have haq : (0 : ℚ) < (a.«matches» : ℚ) := by exact_mod_cast ha
      have hrest : 0 ≤ ((playRates (a :: t)).tail.map (fun r => r * r)).sum := by
        apply List.sum_nonneg
        intro x hx
        rcases List.mem_map.mp hx with ⟨r, _, rfl⟩
        exact mul_self_nonneg r
      have hhead : 0 < ((a.«matches» : ℚ) / (totalMatches (a :: t) : ℚ)) *
          ((a.«matches» : ℚ) / (totalMatches (a :: t) : ℚ)) :=
        mul_pos (div_pos haq htq) (div_pos haq htq)
      unfold hhi playRates at hrest ⊢
      simp only [List.map_cons, List.sum_cons, List.tail_cons] at hrest ⊢
      linarith
  rw [calculate_hero_pool_metrics_pos l hne ht]
  refine ⟨playRates_sum l ht, ?_, ?_, ?_, ?_⟩
  · show 0 < primaryDominance l
    cases l with
    | nil => exact absurd rfl hne
    | cons a t =>
      have ha : 0 < a.«matches» := hm a (List.mem_cons_self a t)
      have haq : (0 : ℚ) < (a.«matches» : ℚ) := by exact_mod_cast ha
      rw [primaryDominance_cons]
      exact div_pos haq htq
  · show primaryDominance l ≤ 1
    cases l with
    | nil => exact absurd rfl hne
    | cons a t =>
      rw [primaryDominance_cons, div_le_one htq]
      exact_mod_cast matches_le_totalMatches (a :: t) (List.mem_cons_self a t)
  · show (0 : ℚ) ≤ 1 - hhi l
    linarith
  · show (1 : ℚ) - hhi l < 1
    linarith

/-- Witness for C10 at the two-hero demo pool. -/
theorem C10_play_rate_invariants_witness :
    (playRates [⟨"X", 80, 70⟩, ⟨"Y", 10, 50⟩]).sum = 1 ∧
    0 < (calculate_hero_pool_metrics
          [⟨"X", 80, 70⟩, ⟨"Y", 10, 50⟩]).primary_hero_dominance ∧
    (calculate_hero_pool_metrics
          [⟨"X", 80, 70⟩, ⟨"Y", 10, 50⟩]).primary_hero_dominance ≤ 1 ∧
    0 ≤ (calculate_hero_pool_metrics
          [⟨"X", 80, 70⟩, ⟨"Y", 10, 50⟩]).diversity_score ∧
    (calculate_hero_pool_metrics
          [⟨"X", 80, 70⟩, ⟨"Y", 10, 50⟩]).diversity_score < 1 :=
  C10_play_rate_invariants [⟨"X", 80, 70⟩, ⟨"Y", 10, 50⟩] (by decide) (by decide)

/-! ## Claim C4: characterisation of `get_top_heroes`

The filtering step is characterised by `rankedHeroRecords` (a `filterMap`
equal to the source's accumulating loop), and the stable descending sort is
characterised via index-tagged records: tagging each filtered record with
its position, there is a permutation of the tagged list that is sorted by
the strict lexicographic order "more matches first, earlier position first"
and whose record component, truncated to `n`, is exactly the function's
output.  That is precisely "sorted by matches descending, ties kept in
original order". -/

/-- The per-entry filter of `get_top_heroes`: `none` for missing ranked
data or zero matches, otherwise the hero record with its winrate
`wins / matches * 100`. -/
def heroRecordOfEntry (p : Nat × HeroStats) : Option HeroRecord :=
  match p.2.ranked with
  | none => none
  | some ranked_data =>
    if 0 < ranked_data.«matches» then
      some ⟨p.2.hero_name, ranked_data.«matches»,
            (ranked_data.wins : ℚ) / (ranked_data.«matches» : ℚ) * 100⟩
    else none

/-- The `ranked_heroes` list of `get_top_heroes` before sorting. -/
def rankedHeroRecords (pd : PlayerInfoResponse) : List HeroRecord :=
  (pd.hero_stats.getD []).filterMap heroRecordOfEntry

/-- A record produced by `heroRecordOfEntry` always has positive
matches. -/
theorem matches_pos_of_heroRecordOfEntry {p : Nat × HeroStats} {h : HeroRecord}
    (hp : heroRecordOfEntry p = some h) : 0 < h.«matches» := by
  unfold heroRecordOfEntry at hp
  split at hp
  · simp at hp
  · split at hp
    · cases hp
      assumption
    · simp at hp

/-- The source's accumulating loop equals the `filterMap`. -/
theorem ranked_fold_eq (hs : List (Nat × HeroStats)) (acc : List HeroRecord) :
    hs.foldl (fun acc p =>
      match p.2.ranked with
      | none => acc
      | some ranked_data =>
        if 0 < ranked_data.«matches» then
          acc ++ [⟨p.2.hero_name, ranked_data.«matches»,
                  (ranked_data.wins : ℚ) / (ranked_data.«matches» : ℚ) * 100⟩]
        else acc) acc
    = acc ++ hs.filterMap heroRecordOfEntry := by
  induction hs generalizing acc with
  | nil => simp
  | cons p t ih =>
    simp only [List.foldl_cons, List.filterMap_cons]
    cases hr : p.2.ranked with
    | none =>
      simp only [hr, heroRecordOfEntry]
      rw [ih]
    | some rd =>
      by_cases hm : 0 < rd.«matches»
      · simp only [hr, heroRecordOfEntry, if_pos hm, ih]
        simp
      · simp only [hr, heroRecordOfEntry, if_neg hm, ih]

/-- For a present, non-empty stats mapping, `get_top_heroes` is the sorted,
truncated `rankedHeroRecords`. -/
theorem get_top_heroes_eq (pd : PlayerInfoResponse) (hs : List (Nat × HeroStats))
    (hpd : pd.hero_stats = some hs) (hne : hs ≠ []) (n : Nat) :
    get_top_heroes pd n =
      ((rankedHeroRecords pd).insertionSort matchesDescR).take n := by
  have hisE : hs.isEmpty = false := by
    cases hs with
    | nil => exact absurd rfl hne
    | cons a t => rfl
  unfold get_top_heroes rankedHeroRecords
  rw [hpd]
  simp only [hisE, Bool.false_eq_true, if_false, Option.getD_some]
  rw [ranked_fold_eq hs []]
  simp

/-- Position tags: `indexedFrom k l` pairs every element of `l` with its
position, starting at `k`. -/
def indexedFrom {α : Type} : Nat → List α → List (Nat × α)
  | _, [] => []
  | k, x :: xs => (k, x) :: indexedFrom (k + 1) xs

/-- Every position tag produced by `indexedFrom k` is at least `k`. -/
theorem le_fst_of_mem_indexedFrom {α : Type} {p : Nat × α} :
    ∀ {k : Nat} {l : List α}, p ∈ indexedFrom k l → k ≤ p.1 := by
  intro k l
  induction l generalizing k with
  | nil => intro h; cases h
  | cons x t ih =>
    intro h
    rcases List.mem_cons.mp h with rfl | hmem
    · exact le_refl _
    · exact Nat.le_of_succ_le (ih hmem)

/-- The strict-priority order on position-tagged hero records: strictly
more matches first; among equal match counts, the earlier original
position first. -/
def lexBeforeR (p q : Nat × HeroRecord) : Prop :=
  q.2.«matches» < p.2.«matches» ∨
    (p.2.«matches» = q.2.«matches» ∧ p.1 ≤ q.1)

instance : DecidableRel lexBeforeR := fun p q =>
  inferInstanceAs (Decidable (_ ∨ _))

instance : IsTotal (Nat × HeroRecord) lexBeforeR :=
  ⟨fun p q => by unfold lexBeforeR; omega⟩

instance : IsTrans (Nat × HeroRecord) lexBeforeR :=
  ⟨fun p q r hpq hqr => by unfold lexBeforeR at hpq hqr ⊢; omega⟩

/-- Inserting a record whose tag is smaller than every tag in the list
commutes with dropping the tags: the tagged lexicographic insertion and the
untagged descending insertion place it identically. -/
theorem orderedInsert_map_snd (x : Nat × HeroRecord) :
    ∀ L : List (Nat × HeroRecord), (∀ p ∈ L, x.1 < p.1) →
      (L.orderedInsert lexBeforeR x).map Prod.snd =
        (L.map Prod.snd).orderedInsert matchesDescR x.2
  | [], _ => rfl
  | y :: L, h => by
    have hxy : lexBeforeR x y ↔ matchesDescR x.2 y.2 := by
      have := h y (List.mem_cons_self y L)
      unfold lexBeforeR matchesDescR
      omega
    by_cases hc : matchesDescR x.2 y.2
    · simp only [List.orderedInsert, if_pos (hxy.mpr hc), if_pos hc, List.map_cons]
    · simp only [List.orderedInsert, if_neg (fun hl => hc (hxy.mp hl)), if_neg hc,
        List.map_cons]
      rw [orderedInsert_map_snd x L (fun p hp => h p (List.mem_cons_of_mem y hp))]

/-- Sorting the position-tagged list by the lexicographic order and
dropping the tags is the untagged stable descending sort. -/
theorem insertionSort_map_snd (l : List HeroRecord) :
    ∀ k : Nat,
      ((indexedFrom k l).insertionSort lexBeforeR).map Prod.snd =
        l.insertionSort matchesDescR := by
  induction l with
  | nil => intro k; rfl
  | cons x t ih =>
    intro k
    simp only [indexedFrom, List.insertionSort]
    rw [orderedInsert_map_snd (k, x) _ ?bound, ih (k + 1)]
    case bound =>
      intro p hp
      have hin : p ∈ indexedFrom (k + 1) t :=
        (List.mem_insertionSort lexBeforeR).mp hp
      have := le_fst_of_mem_indexedFrom hin
      omega

/-- **C4.** For every player-stats record and every `n`: a missing or empty
stats mapping yields `[]`; every returned record has positive matches (zero-
match heroes and heroes with missing ranked data are discarded, the rest
carry winrate `wins / matches * 100` by construction of
`rankedHeroRecords`); at most `n` records are returned; the output is
sorted by matches descending; and it is the `n`-prefix of a permutation of
the position-tagged filtered records sorted by the strict order "more
matches first, earlier original position first" — i.e. the sort is stable. -/
theorem C4_get_top_heroes_spec (pd : PlayerInfoResponse) (n : Nat) :
    (pd.hero_stats = none → get_top_heroes pd n = []) ∧
    (pd.hero_stats = some [] → get_top_heroes pd n = []) ∧
    (∀ h ∈ get_top_heroes pd n, 0 < h.«matches») ∧
    (get_top_heroes pd n).length ≤ n ∧
    List.Pairwise matchesDescR (get_top_heroes pd n) ∧
    ∃ l' : List (Nat × HeroRecord),
      l'.Perm (indexedFrom 0 (rankedHeroRecords pd)) ∧
      List.Pairwise lexBeforeR l' ∧
      get_top_heroes pd n = (l'.map Prod.snd).take n := by
  by_cases hdeg : pd.hero_stats = none ∨ pd.hero_stats = some []
  · -- Degenerate inputs: everything is empty.
    have hget : get_top_heroes pd n = [] := by
      unfold get_top_heroes
      rcases hdeg with h | h <;> rw [h] <;> rfl
    have hranked : rankedHeroRecords pd = [] := by
      unfold rankedHeroRecords
      rcases hdeg with h | h <;> rw [h] <;> rfl
    refine ⟨fun _ => hget, fun _ => hget, ?_, ?_, ?_, [], ?_, ?_, ?_⟩
    · intro h hmem; rw [hget] at hmem; cases hmem
    · rw [hget]; exact Nat.zero_le n
    · rw [hget]; exact List.Pairwise.nil
    · rw [hranked]; rfl
    · exact List.Pairwise.nil
    · rw [hget]; simp
  · push_neg at hdeg
    obtain ⟨hnone, hnil⟩ := hdeg
    obtain ⟨hs, hpd⟩ : ∃ hs, pd.hero_stats = some hs := by
      cases h : pd.hero_stats with
      | none => exact absurd h hnone
      | some hs => exact ⟨hs, rfl⟩
    have hne : hs ≠ [] := by
      intro h
      rw [h] at hpd
      exact hnil hpd
    have hget := get_top_heroes_eq pd hs hpd hne n
    refine ⟨fun h => absurd h hnone, fun h => absurd h hnil, ?_, ?_, ?_, ?_⟩
    · -- membership: every output record has positive matches
      intro h hmem
      rw [hget] at hmem
      have hsort := List.mem_of_mem_take hmem
      have hr : h ∈ rankedHeroRecords pd :=
        (List.mem_insertionSort matchesDescR).mp hsort
      unfold rankedHeroRecords at hr
      rcases List.mem_filterMap.mp hr with ⟨p, _, hp⟩
      exact matches_pos_of_heroRecordOfEntry hp
    · rw [hget, List.length_take]
      exact min_le_left n _
    · rw [hget]
      exact ((List.sorted_insertionSort matchesDescR _).sublist
        (List.take_sublist n _))
    · refine ⟨(indexedFrom 0 (rankedHeroRecords pd)).insertionSort lexBeforeR,
        List.perm_insertionSort lexBeforeR _, List.sorted_insertionSort lexBeforeR _, ?_⟩
      rw [hget, insertionSort_map_snd (rankedHeroRecords pd) 0]

/-- Witness for C4 at a concrete three-hero stats record (one hero with
zero matches, one with missing ranked data). -/
theorem C4_get_top_heroes_spec_witness :
    get_top_heroes ⟨"P", none⟩ 5 = [] ∧
    (∀ h ∈ get_top_heroes
        ⟨"P", some [(1, ⟨"A", some ⟨3, 2, 0, 0, 0, 0, 0, 0, 0, 0, 0, 0⟩⟩),
                    (2, ⟨"B", some ⟨0, 0, 0, 0, 0, 0, 0, 0, 0, 0, 0, 0⟩⟩),
                    (3, ⟨"C", none⟩)]⟩ 5, 0 < h.«matches») :=
  ⟨(C4_get_top_heroes_spec ⟨"P", none⟩ 5).1 rfl,
   (C4_get_top_heroes_spec _ 5).2.2.1⟩

/-! ## Association-list lemmas -/

/-- `List.lookup` on a cons cell, with a propositional key test. -/
theorem lookup_cons_eq {β : Type} (k : String) (v : β) (l : List (String × β))
    (a : String) :
    List.lookup a ((k, v) :: l) = if a = k then some v else List.lookup a l := by
  by_cases h : a = k
  · subst h
    simp [List.lookup]
  · have hb : (a == k) = false := beq_eq_false_iff_ne.mpr h
    simp [List.lookup, hb, h]

/-- Effect of a counter increment on every lookup. -/
theorem countOf_incr (u : List (String × Nat)) (k k' : String) :
    countOf (incr u k) k' = countOf u k' + (if k' = k then 1 else 0) := by
  induction u with
  | nil =>
    by_cases h : k' = k <;> simp [countOf, incr, lookup_cons_eq, h]
  | cons a rest ih =>
    obtain ⟨ka, n⟩ := a
    unfold incr
    by_cases hka : k = ka
    · subst hka
      by_cases hk' : k' = k <;>
        simp [countOf, lookup_cons_eq, hk', if_pos, if_neg]
    · rw [if_neg hka]
      by_cases hk' : k' = ka
      · subst hk'
        have : k' ≠ k := fun h => hka h.symm
        simp [countOf, lookup_cons_eq, this]
      · unfold countOf at ih ⊢
        rw [lookup_cons_eq, lookup_cons_eq, if_neg hk', if_neg hk']
        exact ih

/-- Effect of `setdefaultAppend` on every lookup. -/
theorem lookup_setdefaultAppend {α : Type} (l : List (String × List α))
    (k : String) (v : α) (a : String) :
    List.lookup a (setdefaultAppend l k v) =
      if a = k then some (((List.lookup k l).getD []) ++ [v])
      else List.lookup a l := by
  induction l with
  | nil =>
    by_cases h : a = k <;> simp [setdefaultAppend, lookup_cons_eq, h]
  | cons p rest ih =>
    obtain ⟨k', vs⟩ := p
    unfold setdefaultAppend
    by_cases hkk' : k = k'
    · subst hkk'
      by_cases ha : a = k <;> simp [lookup_cons_eq, ha]
    · rw [if_neg hkk']
      by_cases ha : a = k'
      · subst ha
        have h1 : a ≠ k := fun h => hkk' h.symm
        simp [lookup_cons_eq, h1]
      · rw [lookup_cons_eq, if_neg ha, ih]
        by_cases ha2 : a = k
        · rw [if_pos ha2, if_pos ha2, lookup_cons_eq, if_neg hkk']
        · rw [if_neg ha2, if_neg ha2, lookup_cons_eq, if_neg ha]

/-- `setdefaultAppend` adds exactly the key `k` to the key set. -/
theorem keyMem_setdefaultAppend {α : Type} (l : List (String × List α))
    (k : String) (v : α) (a : String) :
    keyMem (setdefaultAppend l k v) a = true ↔ keyMem l a = true ∨ a = k := by
  unfold keyMem
  rw [lookup_setdefaultAppend]
  by_cases h : a = k <;> simp [h]

/-- `setdefaultAppend` never stores an empty evidence list. -/
theorem setdefaultAppend_values_ne_nil {α : Type} (l : List (String × List α))
    (k : String) (v : α)
    (hl : ∀ a vs, List.lookup a l = some vs → vs ≠ []) :
    ∀ a vs, List.lookup a (setdefaultAppend l k v) = some vs → vs ≠ [] := by
  intro a vs hv
  rw [lookup_setdefaultAppend] at hv
  by_cases h : a = k
  · rw [if_pos h] at hv
    cases hv
    simp
  · rw [if_neg h] at hv
    exact hl a vs hv

/-- Boolean equality from propositional equivalence. -/
theorem bool_eq_of_iff {a b : Bool} (h : a = true ↔ b = true) : a = b := by
  cases a <;> cases b <;> simp_all

/-! ## Characterisation of the classifier's accumulators -/

/-- The inner usage loop adds, for each target hero, the number of records
of the current player's list qualifying for that hero. -/
theorem countOf_usage_inner (th : List HeroRecord) (u : List (String × Nat))
    (hero : String) :
    countOf (th.foldl usageStep u) hero
      = countOf u hero + th.countP (commonQualB hero) := by
  induction th generalizing u with
  | nil => simp
  | cons h t ih =>
    simp only [List.foldl_cons, List.countP_cons]
    by_cases hc : COMMON_WINRATE_THRESHOLD ≤ h.winrate ∧
        COMMON_MATCH_THRESHOLD ≤ h.«matches»
    · have hstep : usageStep u h = incr u h.hero_name := by
        unfold usageStep; rw [if_pos hc]
      rw [hstep, ih, countOf_incr]
      by_cases hname : h.hero_name = hero
      · simp [commonQualB, hname, hc.1, hc.2]
        omega
      · have h1 : hero ≠ h.hero_name := fun h' => hname h'.symm
        simp [commonQualB, hname, h1]
    · have hstep : usageStep u h = u := by
        unfold usageStep; rw [if_neg hc]
      rw [hstep, ih]
      have : commonQualB hero h = false := by
        rcases not_and_or.mp hc with h1 | h1 <;> simp [commonQualB, h1]
      simp [this]

/-- The final usage counter counts, per hero, the qualifying records
summed over all processed players. -/
theorem countOf_hero_usage_of (pth : List (String × List HeroRecord))
    (hero : String) :
    countOf (hero_usage_of pth) hero =
      (pth.map (fun pr => pr.2.countP (commonQualB hero))).sum := by
  suffices h : ∀ u, countOf (pth.foldl (fun hero_usage pr =>
      pr.2.foldl usageStep hero_usage) u) hero
      = countOf u hero + (pth.map (fun pr => pr.2.countP (commonQualB hero))).sum by
    have := h []
    simpa [hero_usage_of, countOf] using this
  induction pth with
  | nil => intro u; simp
  | cons pr t ih =>
    intro u
    simp only [List.foldl_cons, List.map_cons, List.sum_cons]
    rw [ih, countOf_usage_inner]
    omega

/-- A player entry tags `hero` as a one-trick candidate: the metrics mark
the player as a one-trick and `hero` is the primary (first) hero. -/
def otTags (pr : String × List HeroRecord) (hero : String) : Prop :=
  (calculate_hero_pool_metrics pr.2).is_one_trick = true ∧
    ∃ primary rest, pr.2 = primary :: rest ∧ primary.hero_name = hero

/-- A player entry tags `hero` as a strong-player (good-player) candidate:
some record for that hero meets both good-player thresholds. -/
def gpTags (pr : String × List HeroRecord) (hero : String) : Prop :=
  ∃ h ∈ pr.2, h.hero_name = hero ∧
    GOOD_PLAYER_WINRATE_THRESHOLD ≤ h.winrate ∧
    GOOD_PLAYER_MATCH_THRESHOLD ≤ h.«matches»

/-- Effect of one `otStep` on key membership. -/
theorem keyMem_otStep (acc : List (String × List OTEntry))
    (pr : String × List HeroRecord) (hero : String) :
    keyMem (otStep acc pr) hero = true ↔
      keyMem acc hero = true ∨ otTags pr hero := by
  unfold otStep otTags
  split
  · -- pr.2 = []: both branches of the if leave the accumulator unchanged
    rename_i hpr
    simp only [ite_self]
    constructor
    · exact Or.inl
    · rintro (h | ⟨-, primary, rest, heq, -⟩)
      · exact h
      · rw [hpr] at heq
        cases heq
  · rename_i primary rest hpr
    dsimp only
    split
    · rename_i hot
      rw [keyMem_setdefaultAppend]
      constructor
      · rintro (h | h)
        · exact Or.inl h
        · exact Or.inr ⟨hot, primary, rest, hpr, h.symm⟩
      · rintro (h | ⟨-, primary', rest', heq, hname⟩)
        · exact Or.inl h
        · rw [hpr] at heq
          cases heq
          exact Or.inr hname.symm
    · rename_i hot
      constructor
      · exact Or.inl
      · rintro (h | ⟨h1, -⟩)
        · exact h
        · exact absurd h1 hot

/-- A hero is a key of `one_tricks` iff some processed player one-tricks
it. -/
theorem keyMem_one_tricks_of (pth : List (String × List HeroRecord))
    (hero : String) :
    keyMem (one_tricks_of pth) hero = true ↔ ∃ pr ∈ pth, otTags pr hero := by
  suffices h : ∀ acc, keyMem (pth.foldl otStep acc) hero = true ↔
      keyMem acc hero = true ∨ ∃ pr ∈ pth, otTags pr hero by
    have := h []
    simpa [one_tricks_of, keyMem, List.lookup] using this
  induction pth with
  | nil => intro acc; simp
  | cons pr t ih =>
    intro acc
    simp only [List.foldl_cons]
    rw [ih, keyMem_otStep, List.exists_mem_cons_iff]
    tauto

/-- Effect of one `gpStep` on key membership. -/
theorem keyMem_gpStep (name : String)
    (acc : List (String × List (String × Nat × ℚ))) (h : HeroRecord)
    (k : String) :
    keyMem (gpStep name acc h) k = true ↔
      keyMem acc k = true ∨
        (h.hero_name = k ∧ GOOD_PLAYER_WINRATE_THRESHOLD ≤ h.winrate ∧
          GOOD_PLAYER_MATCH_THRESHOLD ≤ h.«matches») := by
  unfold gpStep
  by_cases hc : GOOD_PLAYER_WINRATE_THRESHOLD ≤ h.winrate ∧
      GOOD_PLAYER_MATCH_THRESHOLD ≤ h.«matches»
  · rw [if_pos hc, keyMem_setdefaultAppend]
    constructor
    · rintro (hm | hm)
      · exact Or.inl hm
      · exact Or.inr ⟨hm.symm, hc⟩
    · rintro (hm | ⟨hname, -⟩)
      · exact Or.inl hm
      · exact Or.inr hname.symm
  · rw [if_neg hc]
    constructor
    · exact Or.inl
    · rintro (hm | ⟨-, hc'⟩)
      · exact hm
      · exact absurd hc' hc

/-- The inner good-player loop over one player's records, on key
membership. -/
theorem keyMem_gp_inner (name : String) (th : List HeroRecord)
    (acc : List (String × List (String × Nat × ℚ))) (k : String) :
    keyMem (th.foldl (gpStep name) acc) k = true ↔
      keyMem acc k = true ∨
        ∃ h ∈ th, h.hero_name = k ∧ GOOD_PLAYER_WINRATE_THRESHOLD ≤ h.winrate ∧
          GOOD_PLAYER_MATCH_THRESHOLD ≤ h.«matches» := by
  induction th generalizing acc with
  | nil => simp
  | cons h t ih =>
    simp only [List.foldl_cons]
    rw [ih, keyMem_gpStep, List.exists_mem_cons_iff]
    tauto

/-- A hero is a key of `good_players` iff some processed player has a
qualifying record for it. -/
theorem keyMem_good_players_of (pth : List (String × List HeroRecord))
    (hero : String) :
    keyMem (good_players_of pth) hero = true ↔ ∃ pr ∈ pth, gpTags pr hero := by
  suffices h : ∀ acc, keyMem (pth.foldl
      (fun good_players pr => pr.2.foldl (gpStep pr.1) good_players) acc) hero = true ↔
      keyMem acc hero = true ∨ ∃ pr ∈ pth, gpTags pr hero by
    have := h []
    simpa [good_players_of, keyMem, List.lookup] using this
  induction pth with
  | nil => intro acc; simp
  | cons pr t ih =>
    intro acc
    simp only [List.foldl_cons]
    rw [ih, keyMem_gp_inner]
    unfold gpTags
    rw [List.exists_mem_cons_iff]
    exact or_assoc

/-! ## Keys of the usage counter are unique -/

/-- A key is in `incr u k` iff it is in `u` or is `k`. -/
theorem mem_keys_incr (u : List (String × Nat)) (k a : String) :
    a ∈ (incr u k).map Prod.fst ↔ a ∈ u.map Prod.fst ∨ a = k := by
  induction u with
  | nil => simp [incr]
  | cons p rest ih =>
    obtain ⟨ka, n⟩ := p
    unfold incr
    by_cases hka : k = ka
    · subst hka
      rw [if_pos rfl]
      simp only [List.map_cons, List.mem_cons]
      tauto
    · rw [if_neg hka]
      simp only [List.map_cons, List.mem_cons, ih]
      tauto

/-- `incr` preserves uniqueness of counter keys. -/
theorem keys_incr_nodup (u : List (String × Nat)) (k : String)
    (h : (u.map Prod.fst).Nodup) : ((incr u k).map Prod.fst).Nodup := by
  induction u with
  | nil => simp [incr]
  | cons p rest ih =>
    obtain ⟨ka, n⟩ := p
    simp only [List.map_cons, List.nodup_cons] at h
    unfold incr
    by_cases hka : k = ka
    · subst hka
      rw [if_pos rfl]
      simp only [List.map_cons, List.nodup_cons]
      exact h
    · rw [if_neg hka]
      simp only [List.map_cons, List.nodup_cons, mem_keys_incr]
      refine ⟨?_, ih h.2⟩
      rintro (hmem | heq)
      · exact h.1 hmem
      · exact hka heq.symm

/-- The usage counter built by the classifier has unique keys. -/
theorem hero_usage_of_keys_nodup (pth : List (String × List HeroRecord)) :
    ((hero_usage_of pth).map Prod.fst).Nodup := by
  suffices h : ∀ u : List (String × Nat), (u.map Prod.fst).Nodup →
      ((pth.foldl (fun hero_usage pr => pr.2.foldl usageStep hero_usage) u).map
        Prod.fst).Nodup by
    exact h [] List.nodup_nil
  have hinner : ∀ (th : List HeroRecord) (u : List (String × Nat)),
      (u.map Prod.fst).Nodup → ((th.foldl usageStep u).map Prod.fst).Nodup := by
    intro th
    induction th with
    | nil => intro u hu; exact hu
    | cons h t ih =>
      intro u hu
      simp only [List.foldl_cons]
      apply ih
      unfold usageStep
      split
      · exact keys_incr_nodup u h.hero_name hu
      · exact hu
  induction pth with
  | nil => intro u hu; exact hu
  | cons pr t ih =>
    intro u hu
    simp only [List.foldl_cons]
    exact ih _ (hinner pr.2 u hu)

/-- For an association list with unique keys, `lookup` agrees with
membership. -/
theorem lookup_eq_some_iff_mem (l : List (String × Nat))
    (hnd : (l.map Prod.fst).Nodup) (k : String) (n : Nat) :
    List.lookup k l = some n ↔ (k, n) ∈ l := by
  induction l with
  | nil => simp
  | cons p rest ih =>
    obtain ⟨k', v⟩ := p
    simp only [List.map_cons, List.nodup_cons] at hnd
    rw [lookup_cons_eq]
    by_cases hk : k = k'
    · subst hk
      rw [if_pos rfl]
      simp only [Option.some.injEq, List.mem_cons, Prod.mk.injEq, true_and]
      constructor
      · intro h
        exact Or.inl h.symm
      · rintro (h | hmem)
        · exact h.symm
        · exact absurd (List.mem_map_of_mem Prod.fst hmem) hnd.1
    · rw [if_neg hk, ih hnd.2]
      simp only [List.mem_cons, Prod.mk.injEq]
      constructor
      · exact Or.inr
      · rintro (⟨h1, -⟩ | hmem)
        · exact absurd h1 hk
        · exact hmem

/-! ## Claim C6 (corrected) -/

/-- Membership in `common_hero_set`, exactly as the source forms it:
`{hero for hero, count in hero_usage.items() if count > 1}`. -/
def isCommonHeroCandidate (pth : List (String × List HeroRecord))
    (hero : String) : Prop :=
  hero ∈ ((hero_usage_of pth).filter (fun p => 1 < p.2)).map Prod.fst

/-- The source's `common_hero_set` membership is exactly "usage counter
above 1". -/
theorem isCommonHeroCandidate_iff (pth : List (String × List HeroRecord))
    (hero : String) :
    isCommonHeroCandidate pth hero ↔
      1 < countOf (hero_usage_of pth) hero := by
  have hnd := hero_usage_of_keys_nodup pth
  unfold isCommonHeroCandidate countOf
  constructor
  · intro hmem
    rcases List.mem_map.mp hmem with ⟨p, hpf, rfl⟩
    rcases List.mem_filter.mp hpf with ⟨hpl, hcount⟩
    have hlk : List.lookup p.1 (hero_usage_of pth) = some p.2 :=
      (lookup_eq_some_iff_mem _ hnd p.1 p.2).mpr hpl
    rw [hlk]
    simpa using hcount
  · intro hcount
    cases hlk : List.lookup hero (hero_usage_of pth) with
    | none => rw [hlk] at hcount; simp at hcount
    | some n =>
      rw [hlk] at hcount
      have hmem : (hero, n) ∈ hero_usage_of pth :=
        (lookup_eq_some_iff_mem _ hnd hero n).mp hlk
      have hfil : (hero, n) ∈ (hero_usage_of pth).filter (fun p => 1 < p.2) :=
        List.mem_filter.mpr ⟨hmem, by simpa using hcount⟩
      exact List.mem_map_of_mem Prod.fst hfil

/-- **C6, amended.** A hero is a common-hero candidate exactly when its
usage counter exceeds 1 — and that counter equals the number of qualifying
top-hero *records* summed over all processed players, not the number of
distinct players: two same-named qualifying records of a single player also
push it past 1. -/
theorem C6_common_candidate_iff (batch : List (String × Option PlayerInfoResponse))
    (hero : String) :
    (isCommonHeroCandidate (playerTopHeroes batch) hero ↔
      1 < countOf (hero_usage_of (playerTopHeroes batch)) hero) ∧
    countOf (hero_usage_of (playerTopHeroes batch)) hero =
      ((playerTopHeroes batch).map
        (fun pr => pr.2.countP (commonQualB hero))).sum :=
  ⟨isCommonHeroCandidate_iff (playerTopHeroes batch) hero,
   countOf_hero_usage_of (playerTopHeroes batch) hero⟩

/-- The player of the C6 counterexample: two hero-stat entries (distinct
numeric ids) that share the hero name and both meet the common thresholds
(30 matches, 17 wins = 56.67% winrate, below the good-player 60%). -/
def pdSolo : PlayerInfoResponse :=
  ⟨"solo",
   some [(1, ⟨"Hela", some ⟨30, 17, 0, 0, 0, 0, 0, 0, 0, 0, 0, 0⟩⟩),
         (2, ⟨"Hela", some ⟨30, 17, 0, 0, 0, 0, 0, 0, 0, 0, 0, 0⟩⟩)]⟩

/-- The single-player batch of the C6 counterexample. -/
def soloBatch : List (String × Option PlayerInfoResponse) :=
  [("solo", some pdSolo)]

/-- **C6, counterexample.** In `soloBatch` the usage counter of `"Hela"`
exceeds 1 (so the hero becomes a common-hero candidate), yet no two
*distinct* players have a qualifying record for it — a single player's
records alone made it a candidate, contradicting the claim. -/
theorem C6_counterexample :
    1 < countOf (hero_usage_of (playerTopHeroes soloBatch)) "Hela" ∧
    isCommonHeroCandidate (playerTopHeroes soloBatch) "Hela" ∧
    ¬ (∃ p₁ ∈ playerTopHeroes soloBatch, ∃ p₂ ∈ playerTopHeroes soloBatch,
        p₁.1 ≠ p₂.1 ∧ (∃ h ∈ p₁.2, commonQualB "Hela" h = true) ∧
        (∃ h ∈ p₂.2, commonQualB "Hela" h = true)) := by
  have h1 : get_top_heroes pdSolo TOP_N =
      [⟨"Hela", 30, 170 / 3⟩, ⟨"Hela", 30, 170 / 3⟩] := by
    norm_num [get_top_heroes, pdSolo, TOP_N, List.insertionSort,
      List.orderedInsert, matchesDescR]
  have h2 : playerEntry ("solo", some pdSolo) =
      some ("solo", [⟨"Hela", 30, 170 / 3⟩, ⟨"Hela", 30, 170 / 3⟩]) := by
    unfold playerEntry
    dsimp only
    rw [h1]
    rfl
  have hpth : playerTopHeroes soloBatch =
      [("solo", [⟨"Hela", 30, 170 / 3⟩, ⟨"Hela", 30, 170 / 3⟩])] := by
    unfold playerTopHeroes soloBatch
    simp only [List.filterMap_cons, List.filterMap_nil, h2]
  have husage : hero_usage_of (playerTopHeroes soloBatch) = [("Hela", 2)] := by
    rw [hpth]
    norm_num [hero_usage_of, usageStep, incr, COMMON_WINRATE_THRESHOLD,
      COMMON_MATCH_THRESHOLD]
  have hcount : countOf (hero_usage_of (playerTopHeroes soloBatch)) "Hela" = 2 := by
    rw [husage]
    simp [countOf, List.lookup]
  refine ⟨by rw [hcount]; omega, ?_, ?_⟩
  · unfold isCommonHeroCandidate
    rw [husage]
    simp
  · rw [hpth]
    rintro ⟨p₁, hp₁, p₂, hp₂, hne, -, -⟩
    simp only [List.mem_singleton] at hp₁ hp₂
    subst hp₁
    subst hp₂
    exact hne rfl

/-! ## Claim C8 -/

/-- **C8.** Permuting the player batch changes neither which heroes are ban
candidates nor the category each candidate is assigned (one-trick,
strong-player, or common-hero); only line order inside a category may
differ. -/
theorem C8_perm_invariance (b₁ b₂ : List (String × Option PlayerInfoResponse))
    (hp : b₁.Perm b₂) (hero : String) :
    isBanCandidate (playerTopHeroes b₁) hero =
      isBanCandidate (playerTopHeroes b₂) hero ∧
    banCategory (playerTopHeroes b₁) hero =
      banCategory (playerTopHeroes b₂) hero := by
  have hpth : (playerTopHeroes b₁).Perm (playerTopHeroes b₂) :=
    hp.filterMap playerEntry
  have hot : keyMem (one_tricks_of (playerTopHeroes b₁)) hero =
      keyMem (one_tricks_of (playerTopHeroes b₂)) hero := by
    apply bool_eq_of_iff
    rw [keyMem_one_tricks_of, keyMem_one_tricks_of]
    constructor
    · rintro ⟨pr, hm, ht⟩
      exact ⟨pr, hpth.mem_iff.mp hm, ht⟩
    · rintro ⟨pr, hm, ht⟩
      exact ⟨pr, hpth.mem_iff.mpr hm, ht⟩
  have hgp : keyMem (good_players_of (playerTopHeroes b₁)) hero =
      keyMem (good_players_of (playerTopHeroes b₂)) hero := by
    apply bool_eq_of_iff
    rw [keyMem_good_players_of, keyMem_good_players_of]
    constructor
    · rintro ⟨pr, hm, ht⟩
      exact ⟨pr, hpth.mem_iff.mp hm, ht⟩
    · rintro ⟨pr, hm, ht⟩
      exact ⟨pr, hpth.mem_iff.mpr hm, ht⟩
  have hus : countOf (hero_usage_of (playerTopHeroes b₁)) hero =
      countOf (hero_usage_of (playerTopHeroes b₂)) hero := by
    rw [countOf_hero_usage_of, countOf_hero_usage_of]
    exact (hpth.map _).sum_eq
  constructor
  · unfold isBanCandidate
    rw [hot, hgp, hus]
  · unfold banCategory
    rw [hot, hgp, hus]

/-- Witness for C8: swapping a two-player batch. -/
theorem C8_perm_invariance_witness :
    (isBanCandidate (playerTopHeroes
        [("A", some ⟨"A", none⟩), ("B", some pdSolo)]) "Hela" =
      isBanCandidate (playerTopHeroes
        [("B", some pdSolo), ("A", some ⟨"A", none⟩)]) "Hela") ∧
    banCategory (playerTopHeroes
        [("A", some ⟨"A", none⟩), ("B", some pdSolo)]) "Hela" =
      banCategory (playerTopHeroes
        [("B", some pdSolo), ("A", some ⟨"A", none⟩)]) "Hela" :=
  C8_perm_invariance _ _
    (List.Perm.swap ("B", some pdSolo) ("A", some ⟨"A", none⟩) []) "Hela"

/-! ## Claim C2: category exclusivity and output ordering -/

/-- The one-trick lines contributed by one candidate hero. -/
def otRender (one_tricks : List (String × List OTEntry)) (hero : String) :
    List Line :=
  match List.lookup hero one_tricks with
  | some entries =>
    entries.map (fun e => Line.oneTrick hero e.player e.«matches» e.winrate e.dominance)
  | none => []

/-- The strong-player lines contributed by one candidate hero (empty when
the hero is already a one-trick key, by the `elif` precedence). -/
def gpRender (one_tricks : List (String × List OTEntry))
    (good_players : List (String × List (String × Nat × ℚ))) (hero : String) :
    List Line :=
  match List.lookup hero one_tricks with
  | some _ => []
  | none =>
    match List.lookup hero good_players with
    | some entries =>
      entries.map (fun e => Line.goodPlayer hero e.1 e.2.1 e.2.2)
    | none => []

/-- The common-hero line contributed by one candidate hero (empty when a
higher-priority category already claimed it). -/
def chRender (one_tricks : List (String × List OTEntry))
    (good_players : List (String × List (String × Nat × ℚ)))
    (hero_usage : List (String × Nat))
    (player_top_heroes : List (String × List HeroRecord)) (hero : String) :
    List Line :=
  match List.lookup hero one_tricks with
  | some _ => []
  | none =>
    match List.lookup hero good_players with
    | some _ => []
    | none =>
      if 1 < countOf hero_usage hero then
        let common_players := get_common_hero_players hero player_top_heroes
        if common_players.isEmpty then [] else [Line.commonHero hero common_players]
      else []

/-- The compile loop splits into the three per-category renders. -/
theorem compile_foldl_split (one_tricks : List (String × List OTEntry))
    (good_players : List (String × List (String × Nat × ℚ)))
    (hero_usage : List (String × Nat))
    (player_top_heroes : List (String × List HeroRecord))
    (cands : List String) :
    ∀ acc : List Line × List Line × List Line,
      cands.foldl (compileStep one_tricks good_players hero_usage player_top_heroes) acc =
        (acc.1 ++ cands.flatMap (otRender one_tricks),
         acc.2.1 ++ cands.flatMap (gpRender one_tricks good_players),
         acc.2.2 ++ cands.flatMap
           (chRender one_tricks good_players hero_usage player_top_heroes)) := by
  induction cands with
  | nil => intro acc; simp
  | cons hero t ih =>
    intro acc
    simp only [List.foldl_cons, List.flatMap_cons]
    rw [ih]
    unfold compileStep otRender gpRender chRender
    cases hlot : List.lookup hero one_tricks with
    | some entries => simp
    | none =>
      cases hlgp : List.lookup hero good_players with
      | some entries => simp
      | none =>
        by_cases hcount : 1 < countOf hero_usage hero
        · rw [if_pos hcount, if_pos hcount]
          by_cases hcp :
              (get_common_hero_players hero player_top_heroes).isEmpty = true
          · rw [if_pos hcp, if_pos hcp]
            simp
          · rw [if_neg hcp, if_neg hcp]
            simp
        · rw [if_neg hcount, if_neg hcount]
          simp

/-- `compile_ban_recommendations` is exactly the three category blocks, in
priority order. -/
theorem compile_eq_parts (ban_candidates : List String)
    (one_tricks : List (String × List OTEntry))
    (good_players : List (String × List (String × Nat × ℚ)))
    (hero_usage : List (String × Nat))
    (player_top_heroes : List (String × List HeroRecord)) :
    compile_ban_recommendations ban_candidates one_tricks good_players
        hero_usage player_top_heroes =
      ban_candidates.flatMap (otRender one_tricks) ++
      ban_candidates.flatMap (gpRender one_tricks good_players) ++
      ban_candidates.flatMap
        (chRender one_tricks good_players hero_usage player_top_heroes) := by
  unfold compile_ban_recommendations
  rw [compile_foldl_split]
  simp

/-- Facts about any line in a one-trick render block. -/
theorem otRender_mem {one_tricks : List (String × List OTEntry)} {hero : String}
    {ln : Line} (h : ln ∈ otRender one_tricks hero) :
    heroOfLine ln = hero ∧ catOfLine ln = BanCat.oneTrick ∧
      keyMem one_tricks hero = true := by
  unfold otRender at h
  cases hl : List.lookup hero one_tricks with
  | none => rw [hl] at h; cases h
  | some entries =>
    rw [hl] at h
    rcases List.mem_map.mp h with ⟨e, -, rfl⟩
    exact ⟨rfl, rfl, by simp [keyMem, hl]⟩

/-- Facts about any line in a strong-player render block. -/
theorem gpRender_mem {one_tricks : List (String × List OTEntry)}
    {good_players : List (String × List (String × Nat × ℚ))} {hero : String}
    {ln : Line} (h : ln ∈ gpRender one_tricks good_players hero) :
    heroOfLine ln = hero ∧ catOfLine ln = BanCat.goodPlayer ∧
      keyMem one_tricks hero = false ∧ keyMem good_players hero = true := by
  unfold gpRender at h
  cases hl : List.lookup hero one_tricks with
  | some entries => rw [hl] at h; cases h
  | none =>
    rw [hl] at h
    cases hg : List.lookup hero good_players with
    | none => rw [hg] at h; cases h
    | some entries =>
      rw [hg] at h
      rcases List.mem_map.mp h with ⟨e, -, rfl⟩
      exact ⟨rfl, rfl, by simp [keyMem, hl], by simp [keyMem, hg]⟩

/-- Facts about any line in a common-hero render block. -/
theorem chRender_mem {one_tricks : List (String × List OTEntry)}
    {good_players : List (String × List (String × Nat × ℚ))}
    {hero_usage : List (String × Nat)}
    {player_top_heroes : List (String × List HeroRecord)} {hero : String}
    {ln : Line}
    (h : ln ∈ chRender one_tricks good_players hero_usage player_top_heroes hero) :
    heroOfLine ln = hero ∧ catOfLine ln = BanCat.commonHero ∧
      keyMem one_tricks hero = false ∧ keyMem good_players hero = false ∧
      1 < countOf hero_usage hero := by
  unfold chRender at h
  cases hl : List.lookup hero one_tricks with
  | some entries => rw [hl] at h; cases h
  | none =>
    rw [hl] at h
    cases hg : List.lookup hero good_players with
    | some entries => rw [hg] at h; cases h
    | none =>
      rw [hg] at h
      by_cases hcount : 1 < countOf hero_usage hero
      · rw [if_pos hcount] at h
        by_cases hcp : (get_common_hero_players hero player_top_heroes).isEmpty = true
        · rw [if_pos hcp] at h
          cases h
        · rw [if_neg hcp] at h
          rcases List.mem_singleton.mp h with rfl
          exact ⟨rfl, rfl, by simp [keyMem, hl], by simp [keyMem, hg], hcount⟩
      · rw [if_neg hcount] at h
        cases h

/-- `one_tricks` never stores an empty evidence list. -/
theorem one_tricks_of_values_ne_nil (pth : List (String × List HeroRecord)) :
    ∀ k vs, List.lookup k (one_tricks_of pth) = some vs → vs ≠ [] := by
  suffices h : ∀ acc, (∀ k vs, List.lookup k acc = some vs → vs ≠ []) →
      ∀ k vs, List.lookup k (pth.foldl otStep acc) = some vs → vs ≠ [] by
    exact h [] (fun k vs hv => by cases hv)
  induction pth with
  | nil => intro acc hacc; exact hacc
  | cons pr t ih =>
    intro acc hacc
    simp only [List.foldl_cons]
    apply ih
    unfold otStep
    split
    · simp only [ite_self]
      exact hacc
    · dsimp only
      split
      · exact setdefaultAppend_values_ne_nil acc _ _ hacc
      · exact hacc

/-- `good_players` never stores an empty evidence list. -/
theorem good_players_of_values_ne_nil (pth : List (String × List HeroRecord)) :
    ∀ k vs, List.lookup k (good_players_of pth) = some vs → vs ≠ [] := by
  suffices h : ∀ acc, (∀ k vs, List.lookup k acc = some vs → vs ≠ []) →
      ∀ k vs, List.lookup k (pth.foldl
        (fun good_players pr => pr.2.foldl (gpStep pr.1) good_players) acc) =
          some vs → vs ≠ [] by
    exact h [] (fun k vs hv => by cases hv)
  have hinner : ∀ (name : String) (th : List HeroRecord)
      (acc : List (String × List (String × Nat × ℚ))),
      (∀ k vs, List.lookup k acc = some vs → vs ≠ []) →
      ∀ k vs, List.lookup k (th.foldl (gpStep name) acc) = some vs → vs ≠ [] := by
    intro name th
    induction th with
    | nil => intro acc hacc; exact hacc
    | cons h t ih =>
      intro acc hacc
      simp only [List.foldl_cons]
      apply ih
      unfold gpStep
      split
      · exact setdefaultAppend_values_ne_nil acc _ _ hacc
      · exact hacc
  induction pth with
  | nil => intro acc hacc; exact hacc
  | cons pr t ih =>
    intro acc hacc
    simp only [List.foldl_cons]
    exact ih _ (hinner pr.1 pr.2 acc hacc)

/-- Key membership as membership in the key list. -/
theorem keyMem_iff_mem_keys {α : Type} (l : List (String × α)) (k : String) :
    keyMem l k = true ↔ k ∈ l.map Prod.fst := by
  induction l with
  | nil => simp [keyMem]
  | cons p rest ih =>
    obtain ⟨k', v⟩ := p
    unfold keyMem
    rw [lookup_cons_eq]
    by_cases hk : k = k'
    · subst hk
      simp
    · rw [if_neg hk]
      unfold keyMem at ih
      simp only [List.map_cons, List.mem_cons, ih]
      constructor
      · exact Or.inr
      · rintro (h | h)
        · exact absurd h hk
        · exact h

/-- A positive sum of mapped naturals has a positive summand. -/
theorem sum_pos_exists {α : Type} (l : List α) (f : α → Nat)
    (h : 0 < (l.map f).sum) : ∃ x ∈ l, 0 < f x := by
  induction l with
  | nil => simp at h
  | cons a t ih =>
    simp only [List.map_cons, List.sum_cons] at h
    by_cases ha : 0 < f a
    · exact ⟨a, List.mem_cons_self a t, ha⟩
    · have : 0 < (t.map f).sum := by omega
      rcases ih this with ⟨x, hx, hfx⟩
      exact ⟨x, List.mem_cons_of_mem a hx, hfx⟩

/-- A hero whose usage counter is positive appears on the common-players
line: some player's top-hero list contains a record named after it. -/
theorem gchp_ne_nil_of_usage (pth : List (String × List HeroRecord))
    (hero : String) (h : 0 < countOf (hero_usage_of pth) hero) :
    get_common_hero_players hero pth ≠ [] := by
  rw [countOf_hero_usage_of] at h
  rcases sum_pos_exists pth _ h with ⟨pr, hpr, hcp⟩
  rcases List.countP_pos.mp hcp with ⟨hd, hhd, hq⟩
  have hname : (hd.hero_name == hero) = true := by
    unfold commonQualB at hq
    exact (Bool.and_eq_true _ _).mp ((Bool.and_eq_true _ _).mp hq).1 |>.1
  have hmem : (pr.1, hd.«matches», hd.winrate) ∈ get_common_hero_players hero pth := by
    unfold get_common_hero_players
    refine List.mem_flatMap.mpr ⟨pr, hpr, ?_⟩
    exact List.mem_map_of_mem _ (List.mem_filter.mpr ⟨hhd, hname⟩)
  exact List.ne_nil_of_mem hmem

/-- Membership in the embedded enumeration of `ban_candidates` coincides
with being a candidate. -/
theorem mem_banCandidatesOf (pth : List (String × List HeroRecord))
    (hero : String) :
    isBanCandidate pth hero = true ↔ hero ∈ banCandidatesOf pth := by
  unfold isBanCandidate banCandidatesOf
  rw [List.mem_dedup, List.mem_append, List.mem_append]
  simp only [Bool.or_eq_true, decide_eq_true_eq]
  rw [keyMem_iff_mem_keys, keyMem_iff_mem_keys]
  have hcommon : hero ∈ ((hero_usage_of pth).filter (fun p => 1 < p.2)).map Prod.fst ↔
      1 < countOf (hero_usage_of pth) hero :=
    isCommonHeroCandidate_iff pth hero
  rw [hcommon]

/-- **C2.** For every batch: the returned list is exactly its one-trick
lines, then its strong-player lines, then its common-hero lines (ordering);
every emitted line's category is the one the precedence rule
(one-trick > strong-player > common-hero) assigns to its hero, so no hero
is rendered under two categories; and every candidate hero is rendered. -/
theorem C2_category_exclusive_and_ordered
    (batch : List (String × Option PlayerInfoResponse)) :
    (determine_bans batch =
      (determine_bans batch).filter (fun ln => catOfLine ln == BanCat.oneTrick) ++
      (determine_bans batch).filter (fun ln => catOfLine ln == BanCat.goodPlayer) ++
      (determine_bans batch).filter (fun ln => catOfLine ln == BanCat.commonHero)) ∧
    (∀ ln ∈ determine_bans batch,
      banCategory (playerTopHeroes batch) (heroOfLine ln) = some (catOfLine ln)) ∧
    (∀ hero, isBanCandidate (playerTopHeroes batch) hero = true →
      ∃ ln ∈ determine_bans batch, heroOfLine ln = hero) := by
  set pth := playerTopHeroes batch with hpthdef
  have hdb : determine_bans batch =
      (banCandidatesOf pth).flatMap (otRender (one_tricks_of pth)) ++
      (banCandidatesOf pth).flatMap
        (gpRender (one_tricks_of pth) (good_players_of pth)) ++
      (banCandidatesOf pth).flatMap
        (chRender (one_tricks_of pth) (good_players_of pth)
          (hero_usage_of pth) pth) := by
    show compile_ban_recommendations (banCandidatesOf pth) (one_tricks_of pth)
        (good_players_of pth) (hero_usage_of pth) pth = _
    exact compile_eq_parts _ _ _ _ _
  have hmemA : ∀ ln ∈ (banCandidatesOf pth).flatMap (otRender (one_tricks_of pth)),
      (catOfLine ln == BanCat.oneTrick) = true := by
    intro ln hln
    rcases List.mem_flatMap.mp hln with ⟨hero, -, hmem⟩
    rw [(otRender_mem hmem).2.1]
    rfl
  have hmemB : ∀ ln ∈ (banCandidatesOf pth).flatMap
      (gpRender (one_tricks_of pth) (good_players_of pth)),
      (catOfLine ln == BanCat.goodPlayer) = true := by
    intro ln hln
    rcases List.mem_flatMap.mp hln with ⟨hero, -, hmem⟩
    rw [(gpRender_mem hmem).2.1]
    rfl
  have hmemC : ∀ ln ∈ (banCandidatesOf pth).flatMap
      (chRender (one_tricks_of pth) (good_players_of pth) (hero_usage_of pth) pth),
      (catOfLine ln == BanCat.commonHero) = true := by
    intro ln hln
    rcases List.mem_flatMap.mp hln with ⟨hero, -, hmem⟩
    rw [(chRender_mem hmem).2.1]
    rfl
  refine ⟨?_, ?_, ?_⟩
  · -- ordering: the list equals its own category blocks in order
    rw [hdb]
    rw [List.filter_append, List.filter_append, List.filter_append,
      List.filter_append, List.filter_append, List.filter_append]
    rw [List.filter_eq_self.mpr hmemA, List.filter_eq_self.mpr hmemB,
      List.filter_eq_self.mpr hmemC]
    rw [List.filter_eq_nil_iff.mpr (fun ln hln => by
        rw [(gpRender_mem (List.mem_flatMap.mp hln).choose_spec.2).2.1]; decide),
      List.filter_eq_nil_iff.mpr (fun ln hln => by
        rw [(chRender_mem (List.mem_flatMap.mp hln).choose_spec.2).2.1]; decide),
      List.filter_eq_nil_iff.mpr (fun ln hln => by
        rw [(otRender_mem (List.mem_flatMap.mp hln).choose_spec.2).2.1]; decide),
      List.filter_eq_nil_iff.mpr (fun ln hln => by
        rw [(chRender_mem (List.mem_flatMap.mp hln).choose_spec.2).2.1]; decide),
      List.filter_eq_nil_iff.mpr (fun ln hln => by
        rw [(otRender_mem (List.mem_flatMap.mp hln).choose_spec.2).2.1]; decide),
      List.filter_eq_nil_iff.mpr (fun ln hln => by
        rw [(gpRender_mem (List.mem_flatMap.mp hln).choose_spec.2).2.1]; decide)]
    simp
  · -- precedence: each line's category is its hero's precedence category
    intro ln hln
    rw [hdb] at hln
    rcases List.mem_append.mp hln with hln' | hlnC
    · rcases List.mem_append.mp hln' with hlnA | hlnB
      · rcases List.mem_flatMap.mp hlnA with ⟨hero, -, hmem⟩
        obtain ⟨h1, h2, h3⟩ := otRender_mem hmem
        rw [h1, h2]
        unfold banCategory
        rw [if_pos h3]
      · rcases List.mem_flatMap.mp hlnB with ⟨hero, -, hmem⟩
        obtain ⟨h1, h2, h3, h4⟩ := gpRender_mem hmem
        rw [h1, h2]
        unfold banCategory
        rw [h3, h4]
        rfl
    · rcases List.mem_flatMap.mp hlnC with ⟨hero, -, hmem⟩
      obtain ⟨h1, h2, h3, h4, h5⟩ := chRender_mem hmem
      rw [h1, h2]
      unfold banCategory
      rw [h3, h4, if_pos h5]
      rfl
  · -- coverage: every candidate hero is rendered
    intro hero hcand
    have hc : hero ∈ banCandidatesOf pth := (mem_banCandidatesOf pth hero).mp hcand
    rw [hdb]
    by_cases hot : keyMem (one_tricks_of pth) hero = true
    · obtain ⟨vs, hlk⟩ := Option.isSome_iff_exists.mp hot
      have hne := one_tricks_of_values_ne_nil pth hero vs hlk
      obtain ⟨e, he⟩ := List.exists_mem_of_ne_nil vs hne
      refine ⟨Line.oneTrick hero e.player e.«matches» e.winrate e.dominance,
        ?_, rfl⟩
      refine List.mem_append.mpr (Or.inl (List.mem_append.mpr (Or.inl ?_)))
      refine List.mem_flatMap.mpr ⟨hero, hc, ?_⟩
      unfold otRender
      rw [hlk]
      exact List.mem_map_of_mem _ he
    · have hotn : List.lookup hero (one_tricks_of pth) = none := by
        unfold keyMem at hot
        cases h : List.lookup hero (one_tricks_of pth) with
        | none => rfl
        | some vs => rw [h] at hot; simp at hot
      by_cases hgp : keyMem (good_players_of pth) hero = true
      · obtain ⟨vs, hlk⟩ := Option.isSome_iff_exists.mp hgp
        have hne := good_players_of_values_ne_nil pth hero vs hlk
        obtain ⟨e, he⟩ := List.exists_mem_of_ne_nil vs hne
        refine ⟨Line.goodPlayer hero e.1 e.2.1 e.2.2, ?_, rfl⟩
        refine List.mem_append.mpr (Or.inl (List.mem_append.mpr (Or.inr ?_)))
        refine List.mem_flatMap.mpr ⟨hero, hc, ?_⟩
        unfold gpRender
        rw [hotn, hlk]
        exact List.mem_map_of_mem _ he
      · have hgpn : List.lookup hero (good_players_of pth) = none := by
          unfold keyMem at hgp
          cases h : List.lookup hero (good_players_of pth) with
          | none => rfl
          | some vs => rw [h] at hgp; simp at hgp
        have hcount : 1 < countOf (hero_usage_of pth) hero := by
          unfold isBanCandidate at hcand
          simp only [Bool.or_eq_true, decide_eq_true_eq] at hcand
          rcases hcand with (h | h) | h
          · exact absurd h hot
          · exact absurd h hgp
          · exact h
        have hcpne : get_common_hero_players hero pth ≠ [] :=
          gchp_ne_nil_of_usage pth hero (by omega)
        refine ⟨Line.commonHero hero (get_common_hero_players hero pth), ?_, rfl⟩
        refine List.mem_append.mpr (Or.inr ?_)
        refine List.mem_flatMap.mpr ⟨hero, hc, ?_⟩
        unfold chRender
        rw [hotn, hgpn, if_pos hcount]
        have : (get_common_hero_players hero pth).isEmpty = false := by
          cases h : get_common_hero_players hero pth with
          | nil => exact absurd h hcpne
          | cons a t => rfl
        dsimp only
        rw [this]
        exact List.mem_singleton.mpr rfl

/-- Witness for C2: in `soloBatch` the hero `"Hela"` is a candidate and is
indeed rendered. -/
theorem C2_category_exclusive_and_ordered_witness :
    ∃ ln ∈ determine_bans soloBatch, heroOfLine ln = "Hela" := by
  have h1 : get_top_heroes pdSolo TOP_N =
      [⟨"Hela", 30, 170 / 3⟩, ⟨"Hela", 30, 170 / 3⟩] := by
    norm_num [get_top_heroes, pdSolo, TOP_N, List.insertionSort,
      List.orderedInsert, matchesDescR]
  have h2 : playerEntry ("solo", some pdSolo) =
      some ("solo", [⟨"Hela", 30, 170 / 3⟩, ⟨"Hela", 30, 170 / 3⟩]) := by
    unfold playerEntry
    dsimp only
    rw [h1]
    rfl
  have hpth : playerTopHeroes soloBatch =
      [("solo", [⟨"Hela", 30, 170 / 3⟩, ⟨"Hela", 30, 170 / 3⟩])] := by
    unfold playerTopHeroes soloBatch
    simp only [List.filterMap_cons, List.filterMap_nil, h2]
  have husage : hero_usage_of (playerTopHeroes soloBatch) = [("Hela", 2)] := by
    rw [hpth]
    norm_num [hero_usage_of, usageStep, incr, COMMON_WINRATE_THRESHOLD,
      COMMON_MATCH_THRESHOLD]
  have hcand : isBanCandidate (playerTopHeroes soloBatch) "Hela" = true := by
    unfold isBanCandidate
    rw [show countOf (hero_usage_of (playerTopHeroes soloBatch)) "Hela" = 2 from by
      rw [husage]; simp [countOf, List.lookup]]
    simp
  exact (C2_category_exclusive_and_ordered soloBatch).2.2 "Hela" hcand

/-! ## Claim C3 (corrected) -/

/-- **C3, amended.** The common-hero line for a hero lists exactly those
players whose top-hero list contains a record named after the hero — each
with that record's matches and winrate — regardless of whether the record
meets the common thresholds. -/
theorem C3_common_line_lists_all_players (hero : String)
    (pth : List (String × List HeroRecord)) (e : String × Nat × ℚ) :
    e ∈ get_common_hero_players hero pth ↔
      ∃ pr ∈ pth, ∃ h ∈ pr.2, h.hero_name = hero ∧
        e = (pr.1, h.«matches», h.winrate) := by
  unfold get_common_hero_players
  rw [List.mem_flatMap]
  constructor
  · rintro ⟨pr, hpr, hmem⟩
    rcases List.mem_map.mp hmem with ⟨h, hh, rfl⟩
    rcases List.mem_filter.mp hh with ⟨hmem2, hname⟩
    exact ⟨pr, hpr, h, hmem2, by simpa using hname, rfl⟩
  · rintro ⟨pr, hpr, h, hh, hname, rfl⟩
    exact ⟨pr, hpr,
      List.mem_map_of_mem _ (List.mem_filter.mpr ⟨hh, by simp [hname]⟩)⟩

/-- Witness for C3 (amended): player `"C"`'s below-threshold record appears
on the line because its hero name matches. -/
theorem C3_common_line_lists_all_players_witness :
    ("C", 5, (0 : ℚ)) ∈ get_common_hero_players "Hela"
      [("A", [⟨"Hela", 25, 60⟩]), ("B", [⟨"Hela", 25, 60⟩]),
       ("C", [⟨"Hela", 5, 0⟩])] :=
  (C3_common_line_lists_all_players "Hela" _ _).mpr
    ⟨("C", [⟨"Hela", 5, 0⟩]), by simp, ⟨"Hela", 5, 0⟩, by simp, rfl, rfl⟩

/-- The three players of the C3 counterexample: A and B meet the common
thresholds on Hela (25 matches, 60% winrate — below the 30-match good-player
bar), C has Hela in their top heroes with only 5 matches and 0% winrate. -/
def pdA : PlayerInfoResponse :=
  ⟨"A", some [(1, ⟨"Hela", some ⟨25, 15, 0, 0, 0, 0, 0, 0, 0, 0, 0, 0⟩⟩)]⟩

/-- Player B of the C3 counterexample (same record as A). -/
def pdB : PlayerInfoResponse :=
  ⟨"B", some [(1, ⟨"Hela", some ⟨25, 15, 0, 0, 0, 0, 0, 0, 0, 0, 0, 0⟩⟩)]⟩

/-- Player C of the C3 counterexample (5 matches, 0 wins on Hela). -/
def pdC : PlayerInfoResponse :=
  ⟨"C", some [(1, ⟨"Hela", some ⟨5, 0, 0, 0, 0, 0, 0, 0, 0, 0, 0, 0⟩⟩)]⟩

/-- The batch of the C3 counterexample. -/
def banBatch : List (String × Option PlayerInfoResponse) :=
  [("A", some pdA), ("B", some pdB), ("C", some pdC)]

/-- **C3, counterexample.** Running the full pipeline on `banBatch`, Hela is
rendered as a common-hero candidate and its single line lists player `"C"`
with 5 matches and 0% winrate — a record meeting neither common threshold —
contradicting the claim that only threshold-meeting players appear. -/
theorem C3_counterexample :
    determine_bans banBatch =
      [Line.commonHero "Hela" [("A", 25, 60), ("B", 25, 60), ("C", 5, 0)]] ∧
    ¬ (COMMON_WINRATE_THRESHOLD ≤ (0 : ℚ) ∧ COMMON_MATCH_THRESHOLD ≤ 5) := by
  constructor
  · have hA : get_top_heroes pdA TOP_N = [⟨"Hela", 25, 60⟩] := by
      norm_num [get_top_heroes, pdA, TOP_N, List.insertionSort,
        List.orderedInsert, matchesDescR]
    have hB : get_top_heroes pdB TOP_N = [⟨"Hela", 25, 60⟩] := by
      norm_num [get_top_heroes, pdB, TOP_N, List.insertionSort,
        List.orderedInsert, matchesDescR]
    have hC : get_top_heroes pdC TOP_N = [⟨"Hela", 5, 0⟩] := by
      norm_num [get_top_heroes, pdC, TOP_N, List.insertionSort,
        List.orderedInsert, matchesDescR]
    have hpeA : playerEntry ("A", some pdA) = some ("A", [⟨"Hela", 25, 60⟩]) := by
      unfold playerEntry
      dsimp only
      rw [hA]
      rfl
    have hpeB : playerEntry ("B", some pdB) = some ("B", [⟨"Hela", 25, 60⟩]) := by
      unfold playerEntry
      dsimp only
      rw [hB]
      rfl
    have hpeC : playerEntry ("C", some pdC) = some ("C", [⟨"Hela", 5, 0⟩]) := by
      unfold playerEntry
      dsimp only
      rw [hC]
      rfl
    have hpth : playerTopHeroes banBatch =
        [("A", [⟨"Hela", 25, 60⟩]), ("B", [⟨"Hela", 25, 60⟩]),
         ("C", [⟨"Hela", 5, 0⟩])] := by
      unfold playerTopHeroes banBatch
      simp only [List.filterMap_cons, List.filterMap_nil, hpeA, hpeB, hpeC]
    have hmAB : (calculate_hero_pool_metrics [⟨"Hela", 25, 60⟩]).is_one_trick
        = false := by
      norm_num [calculate_hero_pool_metrics, totalMatches,
        ONE_TRICK_MINIMUM_MATCHES]
    have hmC : (calculate_hero_pool_metrics [⟨"Hela", 5, 0⟩]).is_one_trick
        = false := by
      norm_num [calculate_hero_pool_metrics, totalMatches,
        ONE_TRICK_MINIMUM_MATCHES]
    have hot : one_tricks_of (playerTopHeroes banBatch) = [] := by
      rw [hpth]
      simp [one_tricks_of, otStep, hmAB, hmC]
    have hgp : good_players_of (playerTopHeroes banBatch) = [] := by
      rw [hpth]
      norm_num [good_players_of, gpStep, GOOD_PLAYER_WINRATE_THRESHOLD,
        GOOD_PLAYER_MATCH_THRESHOLD]
    have hus : hero_usage_of (playerTopHeroes banBatch) = [("Hela", 2)] := by
      rw [hpth]
      norm_num [hero_usage_of, usageStep, incr, COMMON_WINRATE_THRESHOLD,
        COMMON_MATCH_THRESHOLD]
    have hcands : banCandidatesOf (playerTopHeroes banBatch) = ["Hela"] := by
      unfold banCandidatesOf
      rw [hot, hgp, hus]
      norm_num [List.dedup]
    have hgchp : get_common_hero_players "Hela" (playerTopHeroes banBatch) =
        [("A", 25, 60), ("B", 25, 60), ("C", 5, 0)] := by
      rw [hpth]
      simp [get_common_hero_players]
    show compile_ban_recommendations (banCandidatesOf (playerTopHeroes banBatch))
        (one_tricks_of (playerTopHeroes banBatch))
        (good_players_of (playerTopHeroes banBatch))
        (hero_usage_of (playerTopHeroes banBatch))
        (playerTopHeroes banBatch) = _
    rw [hcands, hot, hgp, hus]
    unfold compile_ban_recommendations
    simp only [List.foldl_cons, List.foldl_nil]
    unfold compileStep
    simp only [List.lookup]
    rw [show countOf [("Hela", 2)] "Hela" = 2 from by simp [countOf, List.lookup]]
    norm_num [hgchp]
  · norm_num [COMMON_WINRATE_THRESHOLD, COMMON_MATCH_THRESHOLD]
